import Mathlib

/-!
Shallow embedding of veendor's install-resolution engine
(`src/lib/install/index.js`) together with the pieces of its collaborators
that the engine's behaviour depends on.  Pure computations (manifest
merging, dependency diffing, fingerprinting) are Lean functions; the
promise-chained orchestration is modelled as explicit state passing that
additionally produces a trace of observable events (backend pulls and
pushes, git queries, npm invocations, filesystem steps), so that ordering
claims can be stated about the trace.
-/

namespace Veendor

/-- Dependency maps of a manifest: association lists from package name to
version specifier, in JavaScript object insertion order. -/
abbrev Deps := List (String × String)

/-- Manifest (`package.json`) as parsed by `pkgJsonUtils.parsePkgJson`:
a runtime dependency map and a development dependency map. -/
structure PkgJson where
  dependencies : Deps
  devDependencies : Deps
  deriving DecidableEq, Repr

/-- Property read on a JavaScript object represented as an association
list: the first entry with the given key wins. -/
def lookupDep (k : String) : Deps → Option String
  | [] => none
  | (k', v) :: rest => if k' = k then some v else lookupDep k rest

/-- Embedding of `Object.assign({}, a, b)` on flat string maps: the keys of
`a` in their order (with values overridden by `b` where both define the
key), followed by the keys of `b` that are absent from `a`.  The second
argument wins on key conflicts. -/
def objectAssign (a b : Deps) : Deps :=
  a.map (fun kv => (kv.1, (lookupDep kv.1 b).getD kv.2))
    ++ b.filter (fun kv => lookupDep kv.1 a = none)

/-- Merged dependency map of a manifest, from `installDiff`:
`Object.assign({}, pkgJson.devDependencies, pkgJson.dependencies)`; the
runtime map wins on key conflicts. -/
def allDeps (p : PkgJson) : Deps :=
  objectAssign p.devDependencies p.dependencies

/-- Embedding of `deep-object-diff`'s `diff(lhs, rhs)` on flat string
maps: keys of `lhs` absent from `rhs` are mapped to `undefined` (`none`),
then every key of `rhs` that is absent from `lhs` or carries a different
value is mapped to its `rhs` value. -/
def depsDiff (lhs rhs : Deps) : List (String × Option String) :=
  (lhs.filter (fun kv => lookupDep kv.1 rhs = none)).map (fun kv => (kv.1, none))
    ++ rhs.filterMap (fun kv =>
        match lookupDep kv.1 lhs with
        | none => some (kv.1, some kv.2)
        | some w => if w = kv.2 then none else some (kv.1, some kv.2))

/-- Dependencies `installDiff` will pass to `npmWrapper.install`:
`_.omitBy(depsDiff, _.isUndefined)`. -/
def depsToInstall (oldPkg newPkg : PkgJson) : Deps :=
  (depsDiff (allDeps oldPkg) (allDeps newPkg)).filterMap
    (fun kv => kv.2.map (fun v => (kv.1, v)))

/-- Package names `installDiff` will pass to `npmWrapper.uninstall`:
`_.keys(_.pickBy(depsDiff, _.isUndefined))`. -/
def depsToUninstall (oldPkg newPkg : PkgJson) : List String :=
  (depsDiff (allDeps oldPkg) (allDeps newPkg)).filterMap
    (fun kv => if kv.2 = none then some kv.1 else none)

/-- Insertion of a key/value pair into a key-sorted association list. -/
def insertSorted (kv : String × String) : Deps → Deps
  | [] => [kv]
  | kv' :: rest =>
    if kv.1 ≤ kv'.1 then kv :: kv' :: rest else kv' :: insertSorted kv rest

/-- Key-sorted copy of a dependency map (insertion sort), used by the
fingerprint's canonicalization. -/
def sortDeps : Deps → Deps
  | [] => []
  | kv :: rest => insertSorted kv (sortDeps rest)

/-- Canonical textual form of a dependency map: sorted by key, rendered as
`k=v,` runs. -/
def serDeps (d : Deps) : String :=
  (sortDeps d).foldl (fun acc kv => acc ++ kv.1 ++ "=" ++ kv.2 ++ ",") ""

/-- Modelled from the spec: `pkgJsonUtils.calcHash` (module
`src/lib/pkgjson.js` is not among the sources).  Section 4.A: canonicalize
the manifest's two dependency maps (sorted by key), fold in the parsed
lockfile-or-absent and the configured salt, and emit a digest that is
deterministic in the inputs and, per the fingerprint-sensitivity property
(section 8, universal property 2), distinct for distinct inputs; we model
the digest as the canonical serialization itself.  Lockfile absent and
lockfile present-but-empty are distinct inputs. -/
def calcHash (p : PkgJson) (lock : Option String) (salt : String) : String :=
  "deps(" ++ serDeps p.dependencies ++ ");dev(" ++ serDeps p.devDependencies
    ++ ");lock(" ++ (match lock with
                     | none => "absent"
                     | some s => "present:" ++ s)
    ++ ");salt(" ++ salt ++ ")"

/-- Error kinds surfaced by the engine and its collaborators, after the
error classes of `src/lib/errors.js`, `src/lib/install/index.js` and the
backend contract. -/
inductive VError where
  | nodeModulesAlreadyExist
  | bundlesNotFound
  | enoentPkgJson
  | pkgJsonNotFound
  | notAGitRepo
  | bundleAlreadyExists
  | rePullMarker
  | npmError
  | assertionFailure
  | typeErrorUndefined
  | fuelOut
  | reentryLimit
  | backendError (code : String)
  deriving DecidableEq, Repr

/-- Outcome of one backend's `pull(hash, options, cacheDir)`. -/
inductive PullOutcome where
  | ok
  | notFound
  | err (e : VError)
  deriving DecidableEq, Repr

/-- Outcome of one backend's `push(hash, options, cacheDir)`. -/
inductive PushOutcome where
  | ok
  | alreadyExists
  | err (e : VError)
  deriving DecidableEq, Repr

/-- Backend descriptor from the configuration: alias, push capability
flag and push-failure tolerance flag (the opaque options record and the
implementation reference are absorbed into the world's outcome maps). -/
structure Backend where
  aliasName : String
  push : Bool := false
  pushMayFail : Bool := false
  deriving DecidableEq, Repr

/-- Configuration consumed by `install`: the ordered backend chain,
`useGitHistory` (`some depth` when present), `fallbackToNpm`, and the
`packageHash` salt. -/
structure Config where
  backends : List Backend
  useGitHistory : Option Nat := none
  fallbackToNpm : Bool := false
  packageHash : String := ""
  deriving Repr

/-- Deterministic environment for one install: filesystem state, backend
behaviour per (alias, fingerprint), git state, the manifest history
(`history.get? i` is the content of the revision `i + 1` commits older
than HEAD; `none` means `gitWrapper.olderRevision` rejects there; a
`(none, _)` entry means the manifest at that revision does not parse),
and npm behaviour. -/
structure World where
  rsyncAvailable : Bool
  nodeModulesExists : Bool
  pkgJson : Option PkgJson
  lockContents : String := ""
  pullOutcome : String → String → PullOutcome
  pushOutcome : String → String → PushOutcome
  isGitRepo : Bool := true
  history : List (Option PkgJson × Option String) := []
  npmInstallOk : Bool := true
  npmUninstallOk : Bool := true
  npmInstallAllOk : Bool := true

/-- Observable events of one install run, in order.  Events are named by
call site: `hashMain` is the first-pass fingerprint computation of
`install` itself, `hashHist i` the recomputation at history revision `i`
inside `pullOlderBundle`; `mainPull` marks the invocation of the main
pull chain (`pullBackends(newPkgJsonHash, config)`), `pushPhaseMark`
the invocation of `pushBackends` with the listed backend aliases. -/
inductive Ev where
  | rsyncProbe
  | accessNM
  | removeStart
  | removeComplete
  | readPkgFiles
  | hashMain (h : String)
  | mainPull (h : String)
  | pull (al : String) (h : String)
  | syncDirs
  | moveNM
  | isGitRepoEv
  | olderRev (idx : Nat)
  | hashHist (idx : Nat) (h : String)
  | depthInc
  | npmInstall (deps : Deps)
  | npmUninstall (pkgs : List String)
  | npmInstallAll
  | pushPhaseMark (aliases : List String) (h : String)
  | push (al : String) (h : String)
  deriving DecidableEq, Repr

/-- Arguments of `install({force, config, rePull, rePullHash, lockfile})`;
`lockfile` records whether a lockfile path was detected at startup (its
contents live in the world). -/
structure InstallArgs where
  force : Bool := false
  rePull : Bool := false
  rePullHash : Option String := none
  lockfile : Bool := false
  deriving DecidableEq, Repr

/-- Embedding of `checkNodeModules`: probe `node_modules`; if it exists
and `force` is unset, fail with `NodeModulesAlreadyExistError`; with
rsync available, keep the directory for syncing; otherwise remove it.
The source returns `Promise.resolve(fsExtra.remove(nodeModules))` from a
`then` callback, and a promise returned from a `then` callback is
adopted, so the removal runs to completion before `checkNodeModules`'s
promise resolves and the resolved value is always `undefined`: the
module-level `clearNodeModulesPromise` is never assigned, and the later
`.then(() => clearNodeModulesPromise)` in `pullBackends` awaits
`undefined`.  The trace therefore records `removeComplete` inside this
step. -/
def checkNodeModules (w : World) (force : Bool) (rsy : Bool) :
    Except VError Unit × List Ev :=
  if w.nodeModulesExists then
    if force then
      if rsy then (.ok (), [.accessNM])
      else (.ok (), [.accessNM, .removeStart, .removeComplete])
    else (.error .nodeModulesAlreadyExist, [.accessNM])
  else (.ok (), [.accessNM])

/-- Recursion worker for `pullBackends`, structural on the chain suffix
`config.backends.drop backendIndex` (the backend at the current index is
the suffix's head). -/
def pullBackendsGo (w : World) (bs : List Backend) (rsy : Bool) (hash : String) :
    List Backend → Nat → Except VError (List Backend) × List Ev
  | [], _ => (.error .bundlesNotFound, [])
  | b :: rest, i =>
    match w.pullOutcome b.aliasName hash with
    | .ok =>
      (.ok (bs.take i), [.pull b.aliasName hash, if rsy then .syncDirs else .moveNM])
    | .notFound =>
      ((pullBackendsGo w bs rsy hash rest (i + 1)).1,
       .pull b.aliasName hash :: (pullBackendsGo w bs rsy hash rest (i + 1)).2)
    | .err e => (.error e, [.pull b.aliasName hash])

/-- Embedding of `pullBackends(hash, config, backendIndex)`: walk the
chain from index `i`; a missing index means the chain is exhausted
(`BundlesNotFoundError`); a `BundleNotFoundError` from a backend recurses
to the next index; success resolves with `missingBackends =
config.backends.slice(0, backendIndex)` after syncing (rsync available)
or moving the fetched tree; any other pull error rejects with that
error. -/
def pullBackends (w : World) (bs : List Backend) (rsy : Bool) (hash : String)
    (i : Nat) : Except VError (List Backend) × List Ev :=
  pullBackendsGo w bs rsy hash (bs.drop i) i

/-- Result of the history walk: the resolved older manifest or an error,
the final value of the (mutated-in-place) `config.useGitHistory.depth`,
and the trace. -/
structure WalkRes where
  out : Except VError PkgJson
  depth : Nat
  tr : List Ev
  deriving Repr

/-- Embedding of `pullOlderBundle(config, prevHash, lockfile,
historyIndex)`, with explicit fuel standing for the (finite) recursion.
State `(i, d, prev)`: `historyIndex`, the current
`config.useGitHistory.depth` (mutated in place by the source), and the
previous fingerprint.  If `i > d`, reject with `BundlesNotFoundError`.
Otherwise query revision `i`; on a query or parse failure advance to
`i + 1`; if the recomputed fingerprint equals `prev`, increment the depth
in place and advance; otherwise run the pull chain on the new
fingerprint, resolving with the older manifest on success and advancing
(with the new fingerprint as `prev`) on any pull-chain failure. -/
def pullOlderBundleFuel (w : World) (cfg : Config) (rsy : Bool) :
    Nat → Nat → Nat → String → WalkRes
  | fuel, i, d, prev =>
    if i > d then ⟨.error .bundlesNotFound, d, []⟩
    else
      match fuel with
      | 0 => ⟨.error .fuelOut, d, []⟩
      | fuel' + 1 =>
        match w.history.get? i with
        | none =>
          let r := pullOlderBundleFuel w cfg rsy fuel' (i + 1) d prev
          ⟨r.out, r.depth, .olderRev i :: r.tr⟩
        | some (none, _) =>
          let r := pullOlderBundleFuel w cfg rsy fuel' (i + 1) d prev
          ⟨r.out, r.depth, .olderRev i :: r.tr⟩
        | some (some pkg, lock) =>
          let h := calcHash pkg lock cfg.packageHash
          if h = prev then
            let r := pullOlderBundleFuel w cfg rsy fuel' (i + 1) (d + 1) prev
            ⟨r.out, r.depth, .olderRev i :: .hashHist i h :: .depthInc :: r.tr⟩
          else
            let p := pullBackends w cfg.backends rsy h 0
            match p.1 with
            | .ok _ => ⟨.ok pkg, d, .olderRev i :: .hashHist i h :: p.2⟩
            | .error _ =>
              let r := pullOlderBundleFuel w cfg rsy fuel' (i + 1) d h
              ⟨r.out, r.depth, .olderRev i :: .hashHist i h :: (p.2 ++ r.tr)⟩

/-- Embedding of `installDiff(oldPkgJson, newPkgJson)`: compute the diff
of the merged maps; run `npmWrapper.install` on the additions/changes
first, then `npmWrapper.uninstall` on the removals; with an empty diff
the source reaches `assert(false, 'Unreachable…')`, which rejects the
promise. -/
def installDiff (w : World) (oldPkg newPkg : PkgJson) :
    Except VError Unit × List Ev :=
  let toI := depsToInstall oldPkg newPkg
  let toU := depsToUninstall oldPkg newPkg
  if toI.isEmpty then
    if toU.isEmpty then (.error .assertionFailure, [])
    else
      ((if w.npmUninstallOk then .ok () else .error .npmError), [.npmUninstall toU])
  else
    if w.npmInstallOk then
      if toU.isEmpty then (.ok (), [.npmInstall toI])
      else
        ((if w.npmUninstallOk then .ok () else .error .npmError),
         [.npmInstall toI, .npmUninstall toU])
    else (.error .npmError, [.npmInstall toI])

/-- Embedding of `npmInstallAll`: run the native full install. -/
def npmInstallAllM (w : World) : Except VError Unit × List Ev :=
  ((if w.npmInstallAllOk then .ok () else .error .npmError), [.npmInstallAll])

/-- Embedding of `tryOlderBundles(config, newPkgJson, newPkgJsonHash,
lockfile)`: check that the project is a git repository (modelled from the
spec and the unit tests: `gitWrapper.isGitRepo` — module not among the
sources — rejects with `NotAGitRepoError` when it is not), then walk the
history; on a walk hit, reconcile the older manifest against the current
one.  On the rePull pass `newPkgJson` was never assigned, and the
source's `installDiff` then reads properties of `undefined`, a
`TypeError`. -/
def tryOlderBundles (w : World) (cfg : Config) (rsy : Bool)
    (newPkg : Option PkgJson) (prevHash : String) (d : Nat) :
    Except VError Unit × Nat × List Ev :=
  if w.isGitRepo then
    match (pullOlderBundleFuel w cfg rsy (d + w.history.length + 2) 0 d prevHash).out with
    | .error e =>
      (.error e,
       (pullOlderBundleFuel w cfg rsy (d + w.history.length + 2) 0 d prevHash).depth,
       .isGitRepoEv ::
         (pullOlderBundleFuel w cfg rsy (d + w.history.length + 2) 0 d prevHash).tr)
    | .ok oldPkg =>
      match newPkg with
      | none =>
        (.error .typeErrorUndefined,
         (pullOlderBundleFuel w cfg rsy (d + w.history.length + 2) 0 d prevHash).depth,
         .isGitRepoEv ::
           (pullOlderBundleFuel w cfg rsy (d + w.history.length + 2) 0 d prevHash).tr)
      | some np =>
        ((installDiff w oldPkg np).1,
         (pullOlderBundleFuel w cfg rsy (d + w.history.length + 2) 0 d prevHash).depth,
         .isGitRepoEv ::
           ((pullOlderBundleFuel w cfg rsy (d + w.history.length + 2) 0 d prevHash).tr ++
            (installDiff w oldPkg np).2))
  else (.error .notAGitRepo, d, [.isGitRepoEv])

/-- Modelled from the spec: `pushBackends` (module
`src/lib/install/pushBackends.js` is not among the sources).  Section
4.G: for each backend whose `push` flag is true, invoke `push`; on
`BundleAlreadyExists`, surface the error as fatal when `rePull` is
already true and as `RePullNeeded` otherwise; on any other failure,
continue when the backend's `pushMayFail` flag is true and propagate
otherwise. -/
def pushBackends (w : World) (bs : List Backend) (hash : String) (rePull : Bool) :
    Except VError Unit × List Ev :=
  match bs with
  | [] => (.ok (), [])
  | b :: rest =>
    if b.push then
      match w.pushOutcome b.aliasName hash with
      | .ok =>
        let r := pushBackends w rest hash rePull
        (r.1, .push b.aliasName hash :: r.2)
      | .alreadyExists =>
        if rePull then (.error .bundleAlreadyExists, [.push b.aliasName hash])
        else (.error .rePullMarker, [.push b.aliasName hash])
      | .err e =>
        if b.pushMayFail then
          let r := pushBackends w rest hash rePull
          (r.1, .push b.aliasName hash :: r.2)
        else (.error e, [.push b.aliasName hash])
    else pushBackends w rest hash rePull

/-- Outcome of one top-level pass of `install`: resolution, a caught
`RePullNeeded` (which re-enters `install`), or a rejection. -/
inductive PassOut where
  | ok
  | rePullNeeded (h : String)
  | err (e : VError)
  deriving DecidableEq, Repr

/-- Result of one pass (and of `install` as a whole): the outcome, the
final value of `config.useGitHistory` (the depth is mutated in place by
the history walk and the mutation survives the call), the final value of
the module-level `rsyncAvailable` flag, and the trace. -/
structure PassRes where
  out : PassOut
  hist : Option Nat
  rsy : Bool
  tr : List Ev
  deriving Repr

/-- Result of the first-pass preparation block of `install` (lines 48-84
of the source): the fingerprint and parsed manifest, or an error.  On the
second run (`rePull`) the checks and recalculations are skipped, the
pinned `rePullHash` is used as the fingerprint, and `newPkgJson` stays
unassigned (`none`). -/
structure PreRes where
  out : Except VError (String × Option PkgJson)
  rsy : Bool
  tr : List Ev

/-- Embedding of the preparation block of `install`: on a rePull pass,
reuse the pinned hash; otherwise probe rsync, check `node_modules`, read
`package.json` (a missing file surfaces as an ENOENT error) and the
detected lockfile, and compute the fingerprint. -/
def installPre (w : World) (cfg : Config) (a : InstallArgs) (rsy0 : Bool) : PreRes :=
  if a.rePull then ⟨.ok (a.rePullHash.getD "null", none), rsy0, []⟩
  else
    match checkNodeModules w a.force w.rsyncAvailable with
    | (.error e, tr) => ⟨.error e, w.rsyncAvailable, .rsyncProbe :: tr⟩
    | (.ok _, tr) =>
      match w.pkgJson with
      | none =>
        ⟨.error .enoentPkgJson, w.rsyncAvailable, .rsyncProbe :: (tr ++ [.readPkgFiles])⟩
      | some pkg =>
        ⟨.ok (calcHash pkg (if a.lockfile then some w.lockContents else none)
            cfg.packageHash, some pkg),
         w.rsyncAvailable,
         .rsyncProbe :: (tr ++ [.readPkgFiles,
           .hashMain (calcHash pkg
             (if a.lockfile then some w.lockContents else none) cfg.packageHash)])⟩

/-- Embedding of the first `.catch` of `install` (lines 93-114): on
`BundlesNotFoundError`, try the git history when `useGitHistory.depth >
0`, else fall back to npm when `fallbackToNpm === true`, else rethrow; an
ENOENT error on `package.json` becomes `PkgJsonNotFoundError`; everything
else is rethrown.  Returns the recovery outcome, the final depth, and the
handler's trace. -/
def catch1 (w : World) (cfg : Config) (rsy : Bool) (newPkg : Option PkgJson)
    (h : String) (e : VError) : Except VError Unit × Option Nat × List Ev :=
  match e with
  | .bundlesNotFound =>
    match cfg.useGitHistory with
    | some d =>
      if 0 < d then
        ((tryOlderBundles w cfg rsy newPkg h d).1,
         some (tryOlderBundles w cfg rsy newPkg h d).2.1,
         (tryOlderBundles w cfg rsy newPkg h d).2.2)
      else if cfg.fallbackToNpm then
        ((npmInstallAllM w).1, some d, (npmInstallAllM w).2)
      else (.error .bundlesNotFound, some d, [])
    | none =>
      if cfg.fallbackToNpm then
        ((npmInstallAllM w).1, none, (npmInstallAllM w).2)
      else (.error .bundlesNotFound, none, [])
  | .enoentPkgJson => (.error .pkgJsonNotFound, cfg.useGitHistory, [])
  | e => (.error e, cfg.useGitHistory, [])

/-- Embedding of the second `.catch` of `install` (lines 115-121): a
`BundlesNotFoundError` still falls back to npm when `fallbackToNpm ===
true`; everything else is rethrown. -/
def catch2 (w : World) (cfg : Config)
    (r : Except VError Unit × Option Nat × List Ev) :
    Except VError Unit × Option Nat × List Ev :=
  match r.1 with
  | .error .bundlesNotFound =>
    if cfg.fallbackToNpm then
      ((npmInstallAllM w).1, r.2.1, r.2.2 ++ (npmInstallAllM w).2)
    else r
  | _ => r

/-- Push phase of `install`: run `pushBackends` over the given backends
with the pass's fingerprint, catching `RePullNeeded`. -/
def pushPhase (w : World) (bs : List Backend) (h : String) (rp : Bool) :
    PassOut × List Ev :=
  ((match (pushBackends w bs h rp).1 with
    | .ok _ => .ok
    | .error .rePullMarker => .rePullNeeded h
    | .error e => .err e),
   .pushPhaseMark (bs.map Backend.aliasName) h :: (pushBackends w bs h rp).2)

/-- Embedding of one top-level pass of `install`: preparation block, the
main pull chain, the two recovery catches, and the push phase.  On a
chain hit (`done = true`) the push phase targets exactly the recorded
`missingBackends` (none when that list is empty); when the tree was
rebuilt by a fallback (`done` still false) it targets the full chain. -/
def installPass (w : World) (cfg : Config) (a : InstallArgs) (rsy0 : Bool) : PassRes :=
  match (installPre w cfg a rsy0).out with
  | .error e =>
    ⟨.err (if e = .enoentPkgJson then VError.pkgJsonNotFound else e),
     cfg.useGitHistory, (installPre w cfg a rsy0).rsy, (installPre w cfg a rsy0).tr⟩
  | .ok (h, newPkg) =>
    match (pullBackends w cfg.backends (installPre w cfg a rsy0).rsy h 0).1 with
    | .ok missing =>
      if missing.isEmpty then
        ⟨.ok, cfg.useGitHistory, (installPre w cfg a rsy0).rsy,
         (installPre w cfg a rsy0).tr ++ .mainPull h ::
           (pullBackends w cfg.backends (installPre w cfg a rsy0).rsy h 0).2⟩
      else
        ⟨(pushPhase w missing h a.rePull).1, cfg.useGitHistory,
         (installPre w cfg a rsy0).rsy,
         (installPre w cfg a rsy0).tr ++ .mainPull h ::
           ((pullBackends w cfg.backends (installPre w cfg a rsy0).rsy h 0).2 ++
            (pushPhase w missing h a.rePull).2)⟩
    | .error e =>
      match (catch2 w cfg (catch1 w cfg (installPre w cfg a rsy0).rsy newPkg h e)).1 with
      | .error e' =>
        ⟨.err e',
         (catch2 w cfg (catch1 w cfg (installPre w cfg a rsy0).rsy newPkg h e)).2.1,
         (installPre w cfg a rsy0).rsy,
         (installPre w cfg a rsy0).tr ++ .mainPull h ::
           ((pullBackends w cfg.backends (installPre w cfg a rsy0).rsy h 0).2 ++
            (catch2 w cfg (catch1 w cfg (installPre w cfg a rsy0).rsy newPkg h e)).2.2)⟩
      | .ok _ =>
        ⟨(pushPhase w cfg.backends h a.rePull).1,
         (catch2 w cfg (catch1 w cfg (installPre w cfg a rsy0).rsy newPkg h e)).2.1,
         (installPre w cfg a rsy0).rsy,
         (installPre w cfg a rsy0).tr ++ .mainPull h ::
           ((pullBackends w cfg.backends (installPre w cfg a rsy0).rsy h 0).2 ++
            (catch2 w cfg (catch1 w cfg (installPre w cfg a rsy0).rsy newPkg h e)).2.2 ++
            (pushPhase w cfg.backends h a.rePull).2)⟩

/-- Embedding of `install` with an explicit bound on the number of
passes, standing for the source's recursive re-entry on `RePullNeeded`
(which re-enters with `force = true`, `rePull = true` and the fingerprint
pinned, sharing the mutated `config` object and the module-level
`rsyncAvailable` flag). -/
def installRec (w : World) : Nat → Config → InstallArgs → Bool → PassRes
  | 0, cfg, _, rsy => ⟨.err .reentryLimit, cfg.useGitHistory, rsy, []⟩
  | n + 1, cfg, a, rsy =>
    match (installPass w cfg a rsy).out with
    | .rePullNeeded h =>
      ⟨(installRec w n { cfg with useGitHistory := (installPass w cfg a rsy).hist }
          { force := true, rePull := true, rePullHash := some h,
            lockfile := a.lockfile } (installPass w cfg a rsy).rsy).out,
       (installRec w n { cfg with useGitHistory := (installPass w cfg a rsy).hist }
          { force := true, rePull := true, rePullHash := some h,
            lockfile := a.lockfile } (installPass w cfg a rsy).rsy).hist,
       (installRec w n { cfg with useGitHistory := (installPass w cfg a rsy).hist }
          { force := true, rePull := true, rePullHash := some h,
            lockfile := a.lockfile } (installPass w cfg a rsy).rsy).rsy,
       (installPass w cfg a rsy).tr ++
         (installRec w n { cfg with useGitHistory := (installPass w cfg a rsy).hist }
            { force := true, rePull := true, rePullHash := some h,
              lockfile := a.lockfile } (installPass w cfg a rsy).rsy).tr⟩
    | _ => installPass w cfg a rsy

/-- Embedding of a top-level `install` call: two passes suffice (the
rePull guard makes a third pass unreachable, which `installRec_two_passes`
below proves). -/
def install (w : World) (cfg : Config) (a : InstallArgs) : PassRes :=
  installRec w 2 cfg a false

/-! Lemmas about association-list lookup, `Object.assign` merging and the
`deep-object-diff` embedding, leading to the delta-installer claims. -/

theorem lookupDep_append_of_some {k : String} {l₁ : Deps} (l₂ : Deps) {v : String}
    (h : lookupDep k l₁ = some v) : lookupDep k (l₁ ++ l₂) = some v := by
  induction l₁ with
  | nil => simp [lookupDep] at h
  | cons kv rest ih =>
    obtain ⟨k', v'⟩ := kv
    by_cases hk : k' = k
    · simp only [lookupDep, if_pos hk] at h ⊢
      exact h
    · simp only [lookupDep, if_neg hk] at h ⊢
      exact ih h

theorem lookupDep_append_of_none {k : String} {l₁ : Deps} (l₂ : Deps)
    (h : lookupDep k l₁ = none) : lookupDep k (l₁ ++ l₂) = lookupDep k l₂ := by
  induction l₁ with
  | nil => simp
  | cons kv rest ih =>
    obtain ⟨k', v'⟩ := kv
    by_cases hk : k' = k
    · simp only [lookupDep, if_pos hk] at h
      cases h
    · simp only [lookupDep, if_neg hk] at h ⊢
      exact ih h

theorem lookupDep_mapOverride (b : Deps) {k : String} (a : Deps) :
    lookupDep k (a.map (fun kv => (kv.1, (lookupDep kv.1 b).getD kv.2))) =
      (lookupDep k a).map (fun v => (lookupDep k b).getD v) := by
  induction a with
  | nil => simp [lookupDep]
  | cons kv rest ih =>
    obtain ⟨k', v'⟩ := kv
    by_cases hk : k' = k
    · subst hk
      simp [lookupDep, ih]
    · simp [lookupDep, hk, ih]

theorem lookupDep_filterNone {k : String} {a : Deps} (b : Deps)
    (h : lookupDep k a = none) :
    lookupDep k (b.filter (fun kv => lookupDep kv.1 a = none)) = lookupDep k b := by
  induction b with
  | nil => simp
  | cons kv rest ih =>
    obtain ⟨k', v'⟩ := kv
    by_cases hk : k' = k
    · subst hk
      simp [List.filter_cons, h, lookupDep]
    · by_cases hp : lookupDep k' a = none
      · rw [List.filter_cons, if_pos (by simp [hp])]
        simp only [lookupDep, if_neg hk]
        exact ih
      · rw [List.filter_cons, if_neg (by simp [hp])]
        simp only [lookupDep, if_neg hk]
        exact ih

theorem objectAssign_lookup_of_some {k v : String} {b : Deps} (a : Deps)
    (hb : lookupDep k b = some v) : lookupDep k (objectAssign a b) = some v := by
  unfold objectAssign
  cases ha : lookupDep k a with
  | some v₀ =>
    have hm := lookupDep_mapOverride b a (k := k)
    rw [ha, hb] at hm
    exact lookupDep_append_of_some _ hm
  | none =>
    have hm := lookupDep_mapOverride b a (k := k)
    rw [ha] at hm
    rw [lookupDep_append_of_none _ hm, lookupDep_filterNone _ ha, hb]

theorem objectAssign_lookup_of_none {k : String} {b : Deps} (a : Deps)
    (hb : lookupDep k b = none) : lookupDep k (objectAssign a b) = lookupDep k a := by
  unfold objectAssign
  cases ha : lookupDep k a with
  | some v₀ =>
    have hm := lookupDep_mapOverride b a (k := k)
    rw [ha, hb] at hm
    exact lookupDep_append_of_some _ hm
  | none =>
    have hm := lookupDep_mapOverride b a (k := k)
    rw [ha] at hm
    rw [lookupDep_append_of_none _ hm, lookupDep_filterNone _ ha, hb]

theorem lookupDep_cons_self (k v : String) (l : Deps) :
    lookupDep k ((k, v) :: l) = some v := by
  simp [lookupDep]

theorem mem_of_lookupDep {k v : String} {l : Deps} (h : lookupDep k l = some v) :
    (k, v) ∈ l := by
  induction l with
  | nil => simp [lookupDep] at h
  | cons kv rest ih =>
    obtain ⟨k', v'⟩ := kv
    by_cases hk : k' = k
    · subst hk
      rw [lookupDep_cons_self] at h
      obtain rfl := Option.some.inj h
      exact List.mem_cons_self _ _
    · simp only [lookupDep, if_neg hk] at h
      exact List.mem_cons_of_mem _ (ih h)

theorem lookupDep_isSome_of_mem {k v : String} {l : Deps} (h : (k, v) ∈ l) :
    (lookupDep k l).isSome := by
  induction l with
  | nil => simp at h
  | cons kv rest ih =>
    obtain ⟨k', v'⟩ := kv
    rcases List.mem_cons.mp h with heq | hmem
    · cases heq
      simp [lookupDep]
    · by_cases hk : k' = k
      · simp [lookupDep, hk]
      · simp only [lookupDep, if_neg hk]
        exact ih hmem

theorem lookupDep_of_mem_nodup {k v : String} {l : Deps}
    (hnd : (l.map Prod.fst).Nodup) (h : (k, v) ∈ l) : lookupDep k l = some v := by
  induction l with
  | nil => simp at h
  | cons kv rest ih =>
    obtain ⟨k', v'⟩ := kv
    simp only [List.map_cons, List.nodup_cons] at hnd
    rcases List.mem_cons.mp h with heq | hmem
    · cases heq
      simp [lookupDep]
    · by_cases hk : k' = k
      · exfalso
        apply hnd.1
        subst hk
        exact List.mem_map.mpr ⟨(k', v), hmem, rfl⟩
      · simp only [lookupDep, if_neg hk]
        exact ih hnd.2 hmem

/-- Entries of `depsToInstall` are exactly the keys whose value in the new
merged map exists and differs from (or is absent in) the old merged
map. -/
theorem mem_depsToInstall {oldPkg newPkg : PkgJson}
    (hn : ((allDeps newPkg).map Prod.fst).Nodup) (k v : String) :
    (k, v) ∈ depsToInstall oldPkg newPkg ↔
      (lookupDep k (allDeps newPkg) = some v ∧
       ¬ lookupDep k (allDeps oldPkg) = some v) := by
  unfold depsToInstall depsDiff
  constructor
  · intro h
    rcases List.mem_filterMap.mp h with ⟨⟨k₁, o₁⟩, hmem, hmap⟩
    cases o₁ with
    | none => simp at hmap
    | some v₁ =>
      simp only [Option.map_some', Option.some.injEq, Prod.mk.injEq] at hmap
      obtain ⟨rfl, rfl⟩ := hmap
      rcases List.mem_append.mp hmem with hdel | hadd
      · rcases List.mem_map.mp hdel with ⟨kv, _, hkv⟩
        simp at hkv
      · rcases List.mem_filterMap.mp hadd with ⟨⟨k₂, v₂⟩, hmem₂, hf⟩
        split at hf
        · rename_i hlo
          simp only [Option.some.injEq, Prod.mk.injEq] at hf
          obtain ⟨rfl, rfl⟩ := hf
          exact ⟨lookupDep_of_mem_nodup hn hmem₂, by simp [hlo]⟩
        · rename_i w hlo
          split at hf
          · cases hf
          · rename_i hw
            simp only [Option.some.injEq, Prod.mk.injEq] at hf
            obtain ⟨rfl, rfl⟩ := hf
            refine ⟨lookupDep_of_mem_nodup hn hmem₂, ?_⟩
            rw [hlo]
            intro hc
            exact hw (Option.some.inj hc)
  · rintro ⟨hnew, hold⟩
    apply List.mem_filterMap.mpr
    refine ⟨(k, some v), ?_, rfl⟩
    apply List.mem_append.mpr
    right
    apply List.mem_filterMap.mpr
    refine ⟨(k, v), mem_of_lookupDep hnew, ?_⟩
    dsimp
    cases hlo : lookupDep k (allDeps oldPkg) with
    | none => rfl
    | some w =>
      have hw : ¬ w = v := by
        intro hc
        exact hold (by rw [hlo, hc])
      simp [if_neg hw]

/-- Entries of `depsToUninstall` are exactly the keys present in the old
merged map and absent from the new one. -/
theorem mem_depsToUninstall {oldPkg newPkg : PkgJson} (k : String) :
    k ∈ depsToUninstall oldPkg newPkg ↔
      ((lookupDep k (allDeps oldPkg)).isSome ∧
       lookupDep k (allDeps newPkg) = none) := by
  unfold depsToUninstall depsDiff
  constructor
  · intro h
    rcases List.mem_filterMap.mp h with ⟨⟨k₁, o₁⟩, hmem, hmap⟩
    cases o₁ with
    | some v₁ => simp at hmap
    | none =>
      simp at hmap
      subst hmap
      rcases List.mem_append.mp hmem with hdel | hadd
      · rcases List.mem_map.mp hdel with ⟨⟨k₂, v₂⟩, hmem₂, hkv⟩
        simp only [Prod.mk.injEq] at hkv
        obtain ⟨rfl, -⟩ := hkv
        rcases List.mem_filter.mp hmem₂ with ⟨hmem₃, hpred⟩
        simp only [decide_eq_true_eq] at hpred
        exact ⟨lookupDep_isSome_of_mem hmem₃, hpred⟩
      · rcases List.mem_filterMap.mp hadd with ⟨⟨k₂, v₂⟩, _, hf⟩
        split at hf
        · simp at hf
        · split at hf
          · cases hf
          · simp at hf
  · rintro ⟨hsome, hnone⟩
    apply List.mem_filterMap.mpr
    refine ⟨(k, none), ?_, by simp⟩
    apply List.mem_append.mpr
    left
    rcases Option.isSome_iff_exists.mp hsome with ⟨v, hv⟩
    apply List.mem_map.mpr
    refine ⟨(k, v), ?_, rfl⟩
    apply List.mem_filter.mpr
    exact ⟨mem_of_lookupDep hv, by simp [hnone]⟩

theorem lookupDep_none_iff {k : String} {l : Deps} :
    lookupDep k l = none ↔ k ∉ l.map Prod.fst := by
  induction l with
  | nil => simp [lookupDep]
  | cons kv rest ih =>
    obtain ⟨k', v'⟩ := kv
    by_cases hk : k' = k
    · subst hk
      simp [lookupDep]
    · simp only [lookupDep, if_neg hk, List.map_cons, List.mem_cons, ih]
      constructor
      · rintro h (rfl | hm)
        · exact hk rfl
        · exact h hm
      · intro h hm
        exact h (Or.inr hm)

theorem objectAssign_keys_nodup {a b : Deps}
    (ha : (a.map Prod.fst).Nodup) (hb : (b.map Prod.fst).Nodup) :
    ((objectAssign a b).map Prod.fst).Nodup := by
  unfold objectAssign
  rw [List.map_append, List.map_map]
  have h1 : (Prod.fst ∘ fun kv : String × String =>
      (kv.1, (lookupDep kv.1 b).getD kv.2)) = Prod.fst := by
    funext kv
    rfl
  rw [h1]
  refine List.Nodup.append ha ?_ ?_
  · exact hb.sublist (List.Sublist.map Prod.fst (List.filter_sublist b))
  · intro x hxa hxb
    rcases List.mem_map.mp hxb with ⟨kv, hkv, rfl⟩
    rcases List.mem_filter.mp hkv with ⟨-, hpred⟩
    simp only [decide_eq_true_eq] at hpred
    exact lookupDep_none_iff.mp hpred hxa

/-! Concrete sample objects, used by witnesses and counterexamples. -/

/-- Sample current manifest (after the unit-test fixture `PKGJSON`). -/
def samplePkgCur : PkgJson :=
  { dependencies := [("foo", "2.2.8"), ("c", "2.2.9")],
    devDependencies := [("baz", "6.6.6")] }

/-- Sample older manifest one revision back. -/
def samplePkg1 : PkgJson :=
  { dependencies := [("foo", "2.2.8"), ("c", "1.0.0")],
    devDependencies := [("baz", "6.6.6")] }

/-- Sample older manifest two revisions back. -/
def samplePkg2 : PkgJson :=
  { dependencies := [("foo", "2.2.8"), ("c", "2.1.8")],
    devDependencies := [("baz", "6.6.6")] }

/-- Manifest with a single runtime dependency. -/
def sampleSwapOld : PkgJson :=
  { dependencies := [("a", "1.0.0")], devDependencies := [] }

/-- Manifest carrying the same dependency moved, at the same version, to
the development map: the merged maps coincide, the fingerprints do
not. -/
def sampleSwapNew : PkgJson :=
  { dependencies := [], devDependencies := [("a", "1.0.0")] }

/-- Sample backend with push capability. -/
def backendA : Backend := { aliasName := "b0", push := true }

/-- Sample backend without push capability. -/
def backendB : Backend := { aliasName := "b1" }

/-- Sample world: `b0` misses, every other backend hits; everything else
succeeds. -/
def sampleWorld : World :=
  { rsyncAvailable := false
    nodeModulesExists := false
    pkgJson := some samplePkgCur
    pullOutcome := fun al _ => if al = "b0" then .notFound else .ok
    pushOutcome := fun _ _ => .ok }

/-- Keys of a dependency map in the claims below are the `Prod.fst`
projections; a manifest's maps are JavaScript objects and have no
duplicate keys, which the Nodup hypotheses record. -/
theorem lookupDep_total_of_mem {k v : String} {l : Deps} (h : (k, v) ∈ l) :
    lookupDep k l ≠ none := by
  intro hc
  exact lookupDep_none_iff.mp hc (List.mem_map.mpr ⟨(k, v), h, rfl⟩)

/-- C5: the delta installer merges dev and runtime maps with runtime
winning, `toInstall` is exactly the new merged entries that are absent or
changed in the old merged map, `toUninstall` is exactly the old merged
keys absent from the new merged map, and the npm install invocation
precedes the npm uninstall invocation. -/
theorem c5_installDiff_delta (w : World) (oldPkg newPkg : PkgJson)
    (h₃ : (newPkg.dependencies.map Prod.fst).Nodup)
    (h₄ : (newPkg.devDependencies.map Prod.fst).Nodup) :
    (∀ p : PkgJson, ∀ k,
      lookupDep k (allDeps p) =
        match lookupDep k p.dependencies with
        | some v => some v
        | none => lookupDep k p.devDependencies) ∧
    (∀ k v, (k, v) ∈ depsToInstall oldPkg newPkg ↔
      (lookupDep k (allDeps newPkg) = some v ∧
       ¬ lookupDep k (allDeps oldPkg) = some v)) ∧
    (∀ k, k ∈ depsToUninstall oldPkg newPkg ↔
      ((lookupDep k (allDeps oldPkg)).isSome ∧
       lookupDep k (allDeps newPkg) = none)) ∧
    ((depsToInstall oldPkg newPkg).isEmpty = false →
     (depsToUninstall oldPkg newPkg).isEmpty = false →
     w.npmInstallOk = true →
     (installDiff w oldPkg newPkg).2 =
       [.npmInstall (depsToInstall oldPkg newPkg),
        .npmUninstall (depsToUninstall oldPkg newPkg)]) := by
  refine ⟨?_, ?_, ?_, ?_⟩
  · intro p k
    cases hd : lookupDep k p.dependencies with
    | some v => exact objectAssign_lookup_of_some _ hd
    | none => exact objectAssign_lookup_of_none _ hd
  · exact mem_depsToInstall (objectAssign_keys_nodup h₄ h₃)
  · exact mem_depsToUninstall
  · intro hI hU hok
    simp [installDiff, hI, hU, hok]

/-- Witness for C5 at a concrete manifest pair: `c` moved from `2.1.8` to
`2.2.9`, so it is in `toInstall`. -/
theorem c5_installDiff_delta_witness :
    ("c", "2.2.9") ∈ depsToInstall samplePkg2 samplePkgCur ↔
      (lookupDep "c" (allDeps samplePkgCur) = some "2.2.9" ∧
       ¬ lookupDep "c" (allDeps samplePkg2) = some "2.2.9") :=
  (c5_installDiff_delta sampleWorld samplePkg2 samplePkgCur
    (by decide) (by decide)).2.1 "c" "2.2.9"

theorem installDiff_no_assert (w : World) (o n : PkgJson)
    (h : (depsToInstall o n).isEmpty = false ∨ (depsToUninstall o n).isEmpty = false) :
    (installDiff w o n).1 ≠ .error .assertionFailure := by
  cases hI : depsToInstall o n with
  | nil =>
    cases hU : depsToUninstall o n with
    | nil => simp [hI, hU] at h
    | cons x xs =>
      cases hok : w.npmUninstallOk <;> simp [installDiff, hI, hU, hok]
  | cons x xs =>
    cases hok : w.npmInstallOk
    · simp [installDiff, hI, hok]
    · cases hU : depsToUninstall o n with
      | nil => simp [installDiff, hI, hU, hok]
      | cons y ys =>
        cases hok2 : w.npmUninstallOk <;> simp [installDiff, hI, hU, hok, hok2]

/-- C8 counterexample: moving a dependency between the runtime and dev
maps at the same version changes the fingerprint but leaves the merged
map — and hence the computed diff — unchanged, so the source's
`assert(false, 'Unreachable')` is reached for a pair of manifests whose
fingerprints differ. -/
theorem c8_assert_reachable :
    calcHash sampleSwapOld none "" ≠ calcHash sampleSwapNew none "" ∧
    depsToInstall sampleSwapOld sampleSwapNew = [] ∧
    depsToUninstall sampleSwapOld sampleSwapNew = [] ∧
    installDiff sampleWorld sampleSwapOld sampleSwapNew =
      (.error .assertionFailure, []) :=
  ⟨by decide, rfl, rfl, rfl⟩

/-- C8 amended: the assert branch is unreachable for manifest pairs whose
MERGED dependency maps differ at some key (fingerprint inequality alone
is not enough, per `c8_assert_reachable`): such a pair always has a
non-empty `toInstall` or `toUninstall`. -/
theorem c8_amended_no_assert (w : World) (oldPkg newPkg : PkgJson)
    (h₃ : (newPkg.dependencies.map Prod.fst).Nodup)
    (h₄ : (newPkg.devDependencies.map Prod.fst).Nodup)
    (k : String)
    (hdiff : ¬ lookupDep k (allDeps oldPkg) = lookupDep k (allDeps newPkg)) :
    (installDiff w oldPkg newPkg).1 ≠ .error .assertionFailure := by
  apply installDiff_no_assert
  cases hnew : lookupDep k (allDeps newPkg) with
  | some v =>
    left
    have hmem : (k, v) ∈ depsToInstall oldPkg newPkg :=
      (mem_depsToInstall (objectAssign_keys_nodup h₄ h₃) k v).mpr
        ⟨hnew, fun hc => hdiff (by rw [hc, hnew])⟩
    cases hl : depsToInstall oldPkg newPkg with
    | nil => rw [hl] at hmem; cases hmem
    | cons x xs => simp
  | none =>
    right
    have hold : (lookupDep k (allDeps oldPkg)).isSome := by
      cases ho : lookupDep k (allDeps oldPkg) with
      | none => exact absurd (by rw [ho, hnew]) hdiff
      | some _ => simp
    have hmem : k ∈ depsToUninstall oldPkg newPkg :=
      (mem_depsToUninstall k).mpr ⟨hold, hnew⟩
    cases hl : depsToUninstall oldPkg newPkg with
    | nil => rw [hl] at hmem; cases hmem
    | cons x xs => simp

/-- Witness for the amended C8 at a concrete pair with differing merged
maps. -/
theorem c8_amended_no_assert_witness :
    (installDiff sampleWorld samplePkg2 samplePkgCur).1 ≠
      .error .assertionFailure :=
  c8_amended_no_assert sampleWorld samplePkg2 samplePkgCur
    (by decide) (by decide) "c" (by decide)

/-! Step equations and inductions for the pull chain. -/

theorem drop_cons_of_get? {α : Type} {bs : List α} {i : Nat} {b : α}
    (hb : bs.get? i = some b) : bs.drop i = b :: bs.drop (i + 1) := by
  have hlt : i < bs.length := by
    rcases List.get?_eq_some.mp hb with ⟨hlt, -⟩
    exact hlt
  have hg : bs.get ⟨i, hlt⟩ = b := by
    have hq := List.get?_eq_get hlt
    rw [hb] at hq
    exact (Option.some.inj hq).symm
  rw [List.drop_eq_get_cons hlt, hg]

theorem pullBackends_eq_none {w : World} {bs : List Backend} {rsy : Bool}
    {hash : String} {i : Nat} (hnone : bs.get? i = none) :
    pullBackends w bs rsy hash i = (.error .bundlesNotFound, []) := by
  unfold pullBackends
  rw [List.drop_eq_nil_of_le (List.get?_eq_none.mp hnone)]
  rfl

theorem pullBackends_eq_ok {w : World} {bs : List Backend} {rsy : Bool}
    {hash : String} {i : Nat} {b : Backend} (hb : bs.get? i = some b)
    (h : w.pullOutcome b.aliasName hash = .ok) :
    pullBackends w bs rsy hash i =
      (.ok (bs.take i),
       [.pull b.aliasName hash, if rsy then .syncDirs else .moveNM]) := by
  unfold pullBackends
  rw [drop_cons_of_get? hb]
  simp only [pullBackendsGo]
  rw [h]

theorem pullBackends_eq_notFound {w : World} {bs : List Backend} {rsy : Bool}
    {hash : String} {i : Nat} {b : Backend} (hb : bs.get? i = some b)
    (h : w.pullOutcome b.aliasName hash = .notFound) :
    pullBackends w bs rsy hash i =
      ((pullBackends w bs rsy hash (i + 1)).1,
       .pull b.aliasName hash :: (pullBackends w bs rsy hash (i + 1)).2) := by
  conv_lhs => rw [pullBackends]
  rw [drop_cons_of_get? hb]
  simp only [pullBackendsGo]
  rw [h]
  rfl

theorem pullBackends_eq_err {w : World} {bs : List Backend} {rsy : Bool}
    {hash : String} {i : Nat} {b : Backend} {e : VError} (hb : bs.get? i = some b)
    (h : w.pullOutcome b.aliasName hash = .err e) :
    pullBackends w bs rsy hash i = (.error e, [.pull b.aliasName hash]) := by
  unfold pullBackends
  rw [drop_cons_of_get? hb]
  simp only [pullBackendsGo]
  rw [h]

theorem pullBackends_ok_of_prefix_miss (w : World) (bs : List Backend)
    (rsy : Bool) (hash : String) (k : Nat) (b : Backend)
    (hk : bs.get? k = some b) (hok : w.pullOutcome b.aliasName hash = .ok)
    (hmiss : ∀ bj ∈ bs.take k, w.pullOutcome bj.aliasName hash = .notFound) :
    ∀ m i, k - i = m → i ≤ k →
      (pullBackends w bs rsy hash i).1 = .ok (bs.take k) := by
  intro m
  induction m with
  | zero =>
    intro i hm hi
    have hik : i = k := by omega
    subst hik
    rw [pullBackends_eq_ok hk hok]
  | succ m ih =>
    intro i hm hi
    have hik : i < k := by omega
    have hkl : k < bs.length := by
      rcases List.get?_eq_some.mp hk with ⟨hlt, -⟩
      exact hlt
    have hbi : bs.get? i = some (bs.get ⟨i, by omega⟩) := List.get?_eq_get _
    have hmem : bs.get ⟨i, by omega⟩ ∈ bs.take k :=
      List.get?_mem (by rw [List.get?_take hik]; exact hbi)
    rw [pullBackends_eq_notFound hbi (hmiss _ hmem)]
    exact ih (i + 1) (by omega) (by omega)

theorem pullBackends_ok_shape (w : World) (bs : List Backend) (rsy : Bool)
    (hash : String) :
    ∀ n i m, bs.length - i = n → (pullBackends w bs rsy hash i).1 = .ok m →
      ∃ k, i ≤ k ∧ m = bs.take k ∧
        ∃ b, bs.get? k = some b ∧ w.pullOutcome b.aliasName hash = .ok := by
  intro n
  induction n with
  | zero =>
    intro i m hn hm
    have hnone : bs.get? i = none := List.get?_eq_none.mpr (by omega)
    rw [pullBackends_eq_none hnone] at hm
    cases hm
  | succ n ih =>
    intro i m hn hm
    cases hbi : bs.get? i with
    | none =>
      rw [pullBackends_eq_none hbi] at hm
      cases hm
    | some b =>
      cases hout : w.pullOutcome b.aliasName hash with
      | ok =>
        rw [pullBackends_eq_ok hbi hout] at hm
        obtain rfl := Except.ok.inj hm
        exact ⟨i, le_refl i, rfl, b, hbi, hout⟩
      | notFound =>
        rw [pullBackends_eq_notFound hbi hout] at hm
        rcases ih (i + 1) m (by omega) hm with ⟨k, hik, hmk, hb⟩
        exact ⟨k, by omega, hmk, hb⟩
      | err e =>
        rw [pullBackends_eq_err hbi hout] at hm
        cases hm

theorem pullBackends_all_miss (w : World) (bs : List Backend) (rsy : Bool)
    (hash : String)
    (hmiss : ∀ b ∈ bs, w.pullOutcome b.aliasName hash = .notFound) :
    ∀ n i, bs.length - i = n →
      (pullBackends w bs rsy hash i).1 = .error .bundlesNotFound := by
  intro n
  induction n with
  | zero =>
    intro i hn
    have hnone : bs.get? i = none := List.get?_eq_none.mpr (by omega)
    rw [pullBackends_eq_none hnone]
  | succ n ih =>
    intro i hn
    cases hbi : bs.get? i with
    | none => rw [pullBackends_eq_none hbi]
    | some b =>
      rw [pullBackends_eq_notFound hbi (hmiss b (List.get?_mem hbi))]
      exact ih (i + 1) (by omega)

theorem pushBackends_trace_shape (w : World) (hash : String) (rp : Bool) :
    ∀ bs : List Backend, ∀ e ∈ (pushBackends w bs hash rp).2,
      ∃ b ∈ bs, e = Ev.push b.aliasName hash := by
  intro bs
  induction bs with
  | nil => simp [pushBackends]
  | cons b rest ih =>
    intro e he
    by_cases hp : b.push = true
    · cases hout : w.pushOutcome b.aliasName hash with
      | ok =>
        simp only [pushBackends, hp, hout, if_true] at he
        rcases List.mem_cons.mp he with rfl | hm
        · exact ⟨b, List.mem_cons_self _ _, rfl⟩
        · rcases ih e hm with ⟨b', hb', he'⟩
          exact ⟨b', List.mem_cons_of_mem _ hb', he'⟩
      | alreadyExists =>
        simp only [pushBackends, hp, hout, if_true] at he
        split at he <;> simp at he <;>
          exact ⟨b, List.mem_cons_self _ _, he⟩
      | err e' =>
        simp only [pushBackends, hp, hout, if_true] at he
        split at he
        · rcases List.mem_cons.mp he with rfl | hm
          · exact ⟨b, List.mem_cons_self _ _, rfl⟩
          · rcases ih e hm with ⟨b', hb', he'⟩
            exact ⟨b', List.mem_cons_of_mem _ hb', he'⟩
        · simp at he
          exact ⟨b, List.mem_cons_self _ _, he⟩
    · simp only [pushBackends, hp, if_false, Bool.false_eq_true] at he
      rcases ih e he with ⟨b', hb', he'⟩
      exact ⟨b', List.mem_cons_of_mem _ hb', he'⟩

/-- Sample world whose backends all fail with an opaque backend error. -/
def sampleErrWorld : World :=
  { sampleWorld with pullOutcome := fun _ _ => .err (.backendError "boom") }

/-- C1: when every backend before index `k` reports BundleNotFound and the
backend at index `k` succeeds, the pull chain resolves with
`missedBackends` equal to the strict prefix `backends.take k`, and every
push event over that missed list targets a backend at an index strictly
below `k` — no later backend is recorded as missed or pushed to. -/
theorem c1_missed_is_strict_prefix (w : World) (bs : List Backend) (rsy : Bool)
    (hash : String) (k : Nat) (b : Backend)
    (hk : bs.get? k = some b) (hok : w.pullOutcome b.aliasName hash = .ok)
    (hmiss : ∀ bj ∈ bs.take k, w.pullOutcome bj.aliasName hash = .notFound) :
    (pullBackends w bs rsy hash 0).1 = .ok (bs.take k) ∧
    (∀ rp e, e ∈ (pushBackends w (bs.take k) hash rp).2 →
      ∃ j, j < k ∧ ∃ bj, bs.get? j = some bj ∧ e = Ev.push bj.aliasName hash) := by
  constructor
  · exact pullBackends_ok_of_prefix_miss w bs rsy hash k b hk hok hmiss
      (k - 0) 0 rfl (Nat.zero_le k)
  · intro rp e he
    rcases pushBackends_trace_shape w hash rp (bs.take k) e he with ⟨bj, hbj, rfl⟩
    rcases List.mem_iff_get?.mp hbj with ⟨j, hj⟩
    have hjk : j < k := by
      rcases List.get?_eq_some.mp hj with ⟨hlen, -⟩
      have hle : (bs.take k).length ≤ k := by
        rw [List.length_take]
        omega
      omega
    refine ⟨j, hjk, bj, ?_, rfl⟩
    rw [← List.get?_take hjk]
    exact hj

/-- Witness for C1 at the sample world: the chain `[b0, b1]` misses at
`b0` and succeeds at index 1. -/
theorem c1_missed_is_strict_prefix_witness :
    (pullBackends sampleWorld [backendA, backendB] false "x" 0).1 =
      .ok ([backendA, backendB].take 1) ∧
    (∀ rp e,
      e ∈ (pushBackends sampleWorld ([backendA, backendB].take 1) "x" rp).2 →
      ∃ j, j < 1 ∧ ∃ bj, [backendA, backendB].get? j = some bj ∧
        e = Ev.push bj.aliasName "x") :=
  c1_missed_is_strict_prefix sampleWorld [backendA, backendB] false "x" 1
    backendB (by decide) (by decide) (by decide)

/-- C6: during the pull chain a BundleNotFound records the backend as
missed (it lands in any eventually-successful missed list) and continues
with the next index; any other pull error aborts the chain and is
surfaced unchanged; a chain in which every backend reports BundleNotFound
rejects with BundlesNotFound. -/
theorem c6_pull_chain_error_semantics (w : World) (bs : List Backend)
    (rsy : Bool) (hash : String) :
    (∀ i b, bs.get? i = some b → w.pullOutcome b.aliasName hash = .notFound →
      (pullBackends w bs rsy hash i).1 = (pullBackends w bs rsy hash (i + 1)).1 ∧
      (pullBackends w bs rsy hash i).2 =
        .pull b.aliasName hash :: (pullBackends w bs rsy hash (i + 1)).2 ∧
      (∀ m, (pullBackends w bs rsy hash i).1 = .ok m → b ∈ m)) ∧
    (∀ i b e, bs.get? i = some b → w.pullOutcome b.aliasName hash = .err e →
      pullBackends w bs rsy hash i = (.error e, [.pull b.aliasName hash])) ∧
    ((∀ b ∈ bs, w.pullOutcome b.aliasName hash = .notFound) →
      (pullBackends w bs rsy hash 0).1 = .error .bundlesNotFound) := by
  refine ⟨?_, ?_, ?_⟩
  · intro i b hb hnf
    refine ⟨?_, ?_, ?_⟩
    · rw [pullBackends_eq_notFound hb hnf]
    · rw [pullBackends_eq_notFound hb hnf]
    · intro m hm
      rcases pullBackends_ok_shape w bs rsy hash (bs.length - i) i m rfl hm with
        ⟨k, hik, rfl, b', hk', hok'⟩
      have hik' : i < k := by
        rcases Nat.lt_or_ge i k with h | h
        · exact h
        · have hki : k = i := by omega
          subst hki
          rw [hb] at hk'
          obtain rfl := Option.some.inj hk'
          rw [hnf] at hok'
          cases hok'
      exact List.get?_mem (by rw [List.get?_take hik']; exact hb)
  · intro i b e hb he
    exact pullBackends_eq_err hb he
  · intro hmiss
    exact pullBackends_all_miss w bs rsy hash hmiss (bs.length - 0) 0 rfl

/-- Witness for C6: a not-found step continues the chain, an opaque error
aborts with the same error, and an all-miss chain yields
BundlesNotFound. -/
theorem c6_pull_chain_error_semantics_witness :
    ((pullBackends sampleWorld [backendA, backendB] false "x" 0).1 =
      (pullBackends sampleWorld [backendA, backendB] false "x" 1).1) ∧
    (pullBackends sampleErrWorld [backendA] false "x" 0 =
      (.error (.backendError "boom"), [.pull "b0" "x"])) ∧
    ((pullBackends sampleWorld [backendA, backendA] false "x" 0).1 =
      .error .bundlesNotFound) :=
  ⟨((c6_pull_chain_error_semantics sampleWorld [backendA, backendB] false "x").1
      0 backendA (by decide) (by decide)).1,
   (c6_pull_chain_error_semantics sampleErrWorld [backendA] false "x").2.1
      0 backendA (.backendError "boom") (by decide) (by decide),
   (c6_pull_chain_error_semantics sampleWorld [backendA, backendA] false "x").2.2
      (by decide)⟩

/-! Step equations for the history walker. -/

theorem pullOlderBundle_eq_skip {w : World} {cfg : Config} {rsy : Bool}
    {fuel i d : Nat} {prev : String} {pkg : PkgJson} {lock : Option String}
    (hid : i ≤ d) (hrev : w.history.get? i = some (some pkg, lock))
    (hhash : calcHash pkg lock cfg.packageHash = prev) :
    pullOlderBundleFuel w cfg rsy (fuel + 1) i d prev =
      ⟨(pullOlderBundleFuel w cfg rsy fuel (i + 1) (d + 1) prev).out,
       (pullOlderBundleFuel w cfg rsy fuel (i + 1) (d + 1) prev).depth,
       .olderRev i :: .hashHist i prev :: .depthInc ::
         (pullOlderBundleFuel w cfg rsy fuel (i + 1) (d + 1) prev).tr⟩ := by
  conv_lhs => rw [pullOlderBundleFuel]
  rw [if_neg (by omega : ¬ i > d), hrev]
  simp [hhash]

theorem pullOlderBundle_eq_fail {w : World} {cfg : Config} {rsy : Bool}
    {fuel i d : Nat} {prev : String}
    (hid : i ≤ d)
    (hrev : w.history.get? i = none ∨ ∃ lock, w.history.get? i = some (none, lock)) :
    pullOlderBundleFuel w cfg rsy (fuel + 1) i d prev =
      ⟨(pullOlderBundleFuel w cfg rsy fuel (i + 1) d prev).out,
       (pullOlderBundleFuel w cfg rsy fuel (i + 1) d prev).depth,
       .olderRev i :: (pullOlderBundleFuel w cfg rsy fuel (i + 1) d prev).tr⟩ := by
  conv_lhs => rw [pullOlderBundleFuel]
  rw [if_neg (by omega : ¬ i > d)]
  rcases hrev with h | ⟨lock, h⟩ <;> rw [h]

theorem pullOlderBundle_eq_pullOk {w : World} {cfg : Config} {rsy : Bool}
    {fuel i d : Nat} {prev : String} {pkg : PkgJson} {lock : Option String}
    (hid : i ≤ d) (hrev : w.history.get? i = some (some pkg, lock))
    (hhash : calcHash pkg lock cfg.packageHash ≠ prev) {m : List Backend}
    (hok : (pullBackends w cfg.backends rsy (calcHash pkg lock cfg.packageHash) 0).1
      = .ok m) :
    pullOlderBundleFuel w cfg rsy (fuel + 1) i d prev =
      ⟨.ok pkg, d,
       .olderRev i :: .hashHist i (calcHash pkg lock cfg.packageHash) ::
         (pullBackends w cfg.backends rsy (calcHash pkg lock cfg.packageHash) 0).2⟩ := by
  conv_lhs => rw [pullOlderBundleFuel]
  rw [if_neg (by omega : ¬ i > d), hrev]
  simp [hhash, hok]

theorem pullOlderBundle_eq_pullErr {w : World} {cfg : Config} {rsy : Bool}
    {fuel i d : Nat} {prev : String} {pkg : PkgJson} {lock : Option String}
    (hid : i ≤ d) (hrev : w.history.get? i = some (some pkg, lock))
    (hhash : calcHash pkg lock cfg.packageHash ≠ prev) {e : VError}
    (herr : (pullBackends w cfg.backends rsy (calcHash pkg lock cfg.packageHash) 0).1
      = .error e) :
    pullOlderBundleFuel w cfg rsy (fuel + 1) i d prev =
      ⟨(pullOlderBundleFuel w cfg rsy fuel (i + 1) d
          (calcHash pkg lock cfg.packageHash)).out,
       (pullOlderBundleFuel w cfg rsy fuel (i + 1) d
          (calcHash pkg lock cfg.packageHash)).depth,
       .olderRev i :: .hashHist i (calcHash pkg lock cfg.packageHash) ::
         ((pullBackends w cfg.backends rsy (calcHash pkg lock cfg.packageHash) 0).2 ++
          (pullOlderBundleFuel w cfg rsy fuel (i + 1) d
            (calcHash pkg lock cfg.packageHash)).tr)⟩ := by
  conv_lhs => rw [pullOlderBundleFuel]
  rw [if_neg (by omega : ¬ i > d), hrev]
  simp [hhash, herr]

theorem pullOlderBundle_eq_exhausted {w : World} {cfg : Config} {rsy : Bool}
    {fuel i d : Nat} {prev : String} (hid : i > d) :
    pullOlderBundleFuel w cfg rsy fuel i d prev =
      ⟨.error .bundlesNotFound, d, []⟩ := by
  cases fuel with
  | zero =>
    conv_lhs => rw [pullOlderBundleFuel]
    rw [if_pos hid]
  | succ n =>
    conv_lhs => rw [pullOlderBundleFuel]
    rw [if_pos hid]

/-- C4: at a history revision whose recomputed fingerprint equals the
previous revision's fingerprint, the walker increments the in-place depth
bound, advances to the next revision, emits no pull event of its own (the
remaining depth budget `d - i` is untouched); at a revision whose
fingerprint differs, the pull chain is run on the new fingerprint. -/
theorem c4_history_depth_idempotence (w : World) (cfg : Config) (rsy : Bool)
    (fuel i d : Nat) (prev : String) (pkg : PkgJson) (lock : Option String)
    (hid : i ≤ d) (hrev : w.history.get? i = some (some pkg, lock)) :
    (calcHash pkg lock cfg.packageHash = prev →
      pullOlderBundleFuel w cfg rsy (fuel + 1) i d prev =
        ⟨(pullOlderBundleFuel w cfg rsy fuel (i + 1) (d + 1) prev).out,
         (pullOlderBundleFuel w cfg rsy fuel (i + 1) (d + 1) prev).depth,
         .olderRev i :: .hashHist i prev :: .depthInc ::
           (pullOlderBundleFuel w cfg rsy fuel (i + 1) (d + 1) prev).tr⟩ ∧
      (∀ al h', Ev.pull al h' ∉
        ([.olderRev i, .hashHist i prev, .depthInc] : List Ev)) ∧
      (d + 1) - (i + 1) = d - i) ∧
    (calcHash pkg lock cfg.packageHash ≠ prev →
      ∃ tl, (pullOlderBundleFuel w cfg rsy (fuel + 1) i d prev).tr =
        .olderRev i :: .hashHist i (calcHash pkg lock cfg.packageHash) ::
          ((pullBackends w cfg.backends rsy
             (calcHash pkg lock cfg.packageHash) 0).2 ++ tl)) := by
  constructor
  · intro hhash
    refine ⟨pullOlderBundle_eq_skip hid hrev hhash, ?_, by omega⟩
    intro al h'
    simp
  · intro hhash
    cases hpl : (pullBackends w cfg.backends rsy
        (calcHash pkg lock cfg.packageHash) 0).1 with
    | ok m =>
      refine ⟨[], ?_⟩
      rw [pullOlderBundle_eq_pullOk hid hrev hhash hpl]
      simp
    | error e =>
      refine ⟨(pullOlderBundleFuel w cfg rsy fuel (i + 1) d
        (calcHash pkg lock cfg.packageHash)).tr, ?_⟩
      rw [pullOlderBundle_eq_pullErr hid hrev hhash hpl]

/-- Witness for C4 at a concrete world whose first history revision
leaves the fingerprint unchanged. -/
theorem c4_history_depth_idempotence_witness :
    pullOlderBundleFuel
        { sampleWorld with history := [(some samplePkgCur, none)] }
        { backends := [backendA] } false 3 0 1
        (calcHash samplePkgCur none "") =
      ⟨(pullOlderBundleFuel
          { sampleWorld with history := [(some samplePkgCur, none)] }
          { backends := [backendA] } false 2 1 2
          (calcHash samplePkgCur none "")).out,
       (pullOlderBundleFuel
          { sampleWorld with history := [(some samplePkgCur, none)] }
          { backends := [backendA] } false 2 1 2
          (calcHash samplePkgCur none "")).depth,
       .olderRev 0 :: .hashHist 0 (calcHash samplePkgCur none "") :: .depthInc ::
         (pullOlderBundleFuel
            { sampleWorld with history := [(some samplePkgCur, none)] }
            { backends := [backendA] } false 2 1 2
            (calcHash samplePkgCur none "")).tr⟩ :=
  ((c4_history_depth_idempotence
      { sampleWorld with history := [(some samplePkgCur, none)] }
      { backends := [backendA] } false 2 0 1
      (calcHash samplePkgCur none "") samplePkgCur none
      (by omega) (by decide)).1 rfl).1

/-! Event classification: the first-pass freshness checks and the two
call-site markers are emitted only by the skeleton of `installPass`
itself, never by the sub-operations (pull chain, history walk, delta
installer, npm fallback, push fanout). -/

/-- Events only the skeleton of `installPass` can emit: the first-pass
freshness checks (rsync probe, node_modules check and removal, manifest
and lockfile read, main hash computation) and the main-pull /
push-phase call-site markers. -/
def Ev.passPrivate : Ev → Bool
  | .rsyncProbe | .accessNM | .removeStart | .removeComplete | .readPkgFiles
  | .hashMain _ | .mainPull _ | .pushPhaseMark _ _ => true
  | _ => false

theorem pullOlderBundle_eq_fuelOut {w : World} {cfg : Config} {rsy : Bool}
    {i d : Nat} {prev : String} (hid : ¬ i > d) :
    pullOlderBundleFuel w cfg rsy 0 i d prev = ⟨.error .fuelOut, d, []⟩ := by
  conv_lhs => rw [pullOlderBundleFuel]
  rw [if_neg hid]

theorem pullBackends_tr_events (w : World) (bs : List Backend) (rsy : Bool)
    (hash : String) :
    ∀ n i, bs.length - i = n → ∀ e ∈ (pullBackends w bs rsy hash i).2,
      e.passPrivate = false ∧ e ≠ .depthInc ∧ e ≠ .isGitRepoEv ∧
      e ≠ .npmInstallAll := by
  intro n
  induction n with
  | zero =>
    intro i hn e he
    have hnone : bs.get? i = none := List.get?_eq_none.mpr (by omega)
    rw [pullBackends_eq_none hnone] at he
    cases he
  | succ n ih =>
    intro i hn e he
    cases hbi : bs.get? i with
    | none =>
      rw [pullBackends_eq_none hbi] at he
      cases he
    | some b =>
      cases hout : w.pullOutcome b.aliasName hash with
      | ok =>
        rw [pullBackends_eq_ok hbi hout] at he
        rcases List.mem_cons.mp he with rfl | he'
        · exact ⟨rfl, by simp, by simp, by simp⟩
        · rcases List.mem_cons.mp he' with rfl | he''
          · cases rsy <;> simp [Ev.passPrivate]
          · cases he''
      | notFound =>
        rw [pullBackends_eq_notFound hbi hout] at he
        rcases List.mem_cons.mp he with rfl | he'
        · exact ⟨rfl, by simp, by simp, by simp⟩
        · exact ih (i + 1) (by omega) e he'
      | err e' =>
        rw [pullBackends_eq_err hbi hout] at he
        rcases List.mem_cons.mp he with rfl | he'
        · exact ⟨rfl, by simp, by simp, by simp⟩
        · cases he'

theorem pullOlderBundle_tr_events (w : World) (cfg : Config) (rsy : Bool) :
    ∀ fuel i d prev, ∀ e ∈ (pullOlderBundleFuel w cfg rsy fuel i d prev).tr,
      e.passPrivate = false ∧ e ≠ .isGitRepoEv ∧ e ≠ .npmInstallAll := by
  intro fuel
  induction fuel with
  | zero =>
    intro i d prev e he
    by_cases hid : i > d
    · rw [pullOlderBundle_eq_exhausted hid] at he
      cases he
    · rw [pullOlderBundle_eq_fuelOut hid] at he
      cases he
  | succ fuel ih =>
    intro i d prev e he
    by_cases hid : i > d
    · rw [pullOlderBundle_eq_exhausted hid] at he
      cases he
    · have hid' : i ≤ d := by omega
      cases hrev : w.history.get? i with
      | none =>
        rw [pullOlderBundle_eq_fail hid' (Or.inl hrev)] at he
        rcases List.mem_cons.mp he with rfl | he'
        · exact ⟨rfl, by simp, by simp⟩
        · exact ih (i + 1) d prev e he'
      | some entry =>
        obtain ⟨po, lock⟩ := entry
        cases po with
        | none =>
          rw [pullOlderBundle_eq_fail hid' (Or.inr ⟨lock, hrev⟩)] at he
          rcases List.mem_cons.mp he with rfl | he'
          · exact ⟨rfl, by simp, by simp⟩
          · exact ih (i + 1) d prev e he'
        | some pkg =>
          by_cases hh : calcHash pkg lock cfg.packageHash = prev
          · rw [pullOlderBundle_eq_skip hid' hrev hh] at he
            rcases List.mem_cons.mp he with rfl | he'
            · exact ⟨rfl, by simp, by simp⟩
            · rcases List.mem_cons.mp he' with rfl | he''
              · exact ⟨rfl, by simp, by simp⟩
              · rcases List.mem_cons.mp he'' with rfl | he'''
                · exact ⟨rfl, by simp, by simp⟩
                · exact ih (i + 1) (d + 1) prev e he'''
          · cases hpl : (pullBackends w cfg.backends rsy
                (calcHash pkg lock cfg.packageHash) 0).1 with
            | ok m =>
              rw [pullOlderBundle_eq_pullOk hid' hrev hh hpl] at he
              rcases List.mem_cons.mp he with rfl | he'
              · exact ⟨rfl, by simp, by simp⟩
              · rcases List.mem_cons.mp he' with rfl | he''
                · exact ⟨rfl, by simp, by simp⟩
                · rcases pullBackends_tr_events w cfg.backends rsy _
                    (cfg.backends.length - 0) 0 rfl e he'' with ⟨h1, -, h3, h4⟩
                  exact ⟨h1, h3, h4⟩
            | error e' =>
              rw [pullOlderBundle_eq_pullErr hid' hrev hh hpl] at he
              rcases List.mem_cons.mp he with rfl | he'
              · exact ⟨rfl, by simp, by simp⟩
              · rcases List.mem_cons.mp he' with rfl | he''
                · exact ⟨rfl, by simp, by simp⟩
                · rcases List.mem_append.mp he'' with h | h
                  · rcases pullBackends_tr_events w cfg.backends rsy _
                      (cfg.backends.length - 0) 0 rfl e h with ⟨h1, -, h3, h4⟩
                    exact ⟨h1, h3, h4⟩
                  · exact ih (i + 1) d _ e h

theorem pullOlderBundle_depth_count (w : World) (cfg : Config) (rsy : Bool) :
    ∀ fuel i d prev,
      (pullOlderBundleFuel w cfg rsy fuel i d prev).depth =
        d + (pullOlderBundleFuel w cfg rsy fuel i d prev).tr.count .depthInc := by
  intro fuel
  induction fuel with
  | zero =>
    intro i d prev
    by_cases hid : i > d
    · rw [pullOlderBundle_eq_exhausted hid]
      simp
    · rw [pullOlderBundle_eq_fuelOut hid]
      simp
  | succ fuel ih =>
    intro i d prev
    by_cases hid : i > d
    · rw [pullOlderBundle_eq_exhausted hid]
      simp
    · have hid' : i ≤ d := by omega
      cases hrev : w.history.get? i with
      | none =>
        rw [pullOlderBundle_eq_fail hid' (Or.inl hrev)]
        simp only [List.count_cons]
        rw [ih (i + 1) d prev]
        simp [Ev.depthInc]
      | some entry =>
        obtain ⟨po, lock⟩ := entry
        cases po with
        | none =>
          rw [pullOlderBundle_eq_fail hid' (Or.inr ⟨lock, hrev⟩)]
          simp only [List.count_cons]
          rw [ih (i + 1) d prev]
          simp
        | some pkg =>
          by_cases hh : calcHash pkg lock cfg.packageHash = prev
          · rw [pullOlderBundle_eq_skip hid' hrev hh]
            simp only [List.count_cons]
            rw [ih (i + 1) (d + 1) prev]
            simp
            omega
          · have hchain : ∀ tr', tr' = (pullBackends w cfg.backends rsy
                (calcHash pkg lock cfg.packageHash) 0).2 →
                tr'.count Ev.depthInc = 0 := by
              intro tr' htr'
              apply List.count_eq_zero.mpr
              intro hmem
              rcases pullBackends_tr_events w cfg.backends rsy _
                (cfg.backends.length - 0) 0 rfl _ (htr' ▸ hmem) with ⟨-, h2, -, -⟩
              exact h2 rfl
            cases hpl : (pullBackends w cfg.backends rsy
                (calcHash pkg lock cfg.packageHash) 0).1 with
            | ok m =>
              rw [pullOlderBundle_eq_pullOk hid' hrev hh hpl]
              simp only [List.count_cons]
              rw [hchain _ rfl]
              simp
            | error e' =>
              rw [pullOlderBundle_eq_pullErr hid' hrev hh hpl]
              simp only [List.count_cons, List.count_append]
              rw [ih (i + 1) d _, hchain _ rfl]
              simp

theorem pushBackends_tr_events (w : World) (bs : List Backend) (hash : String)
    (rp : Bool) :
    ∀ e ∈ (pushBackends w bs hash rp).2,
      e.passPrivate = false ∧ e ≠ .depthInc ∧ e ≠ .isGitRepoEv ∧
      e ≠ .npmInstallAll := by
  intro e he
  rcases pushBackends_trace_shape w hash rp bs e he with ⟨b, -, rfl⟩
  exact ⟨rfl, by simp, by simp, by simp⟩

theorem installDiff_tr_events (w : World) (o n : PkgJson) :
    ∀ e ∈ (installDiff w o n).2,
      e.passPrivate = false ∧ e ≠ .depthInc ∧ e ≠ .isGitRepoEv ∧
      e ≠ .npmInstallAll := by
  intro e he
  have hsh : (∃ ds, e = Ev.npmInstall ds) ∨ ∃ ps, e = Ev.npmUninstall ps := by
    cases hI : depsToInstall o n with
    | nil =>
      cases hU : depsToUninstall o n with
      | nil => simp [installDiff, hI, hU] at he
      | cons x xs =>
        cases hok : w.npmUninstallOk <;> simp [installDiff, hI, hU, hok] at he <;>
          exact Or.inr ⟨_, he⟩
    | cons x xs =>
      cases hok : w.npmInstallOk with
      | false =>
        simp [installDiff, hI, hok] at he
        exact Or.inl ⟨_, he⟩
      | true =>
        cases hU : depsToUninstall o n with
        | nil =>
          simp [installDiff, hI, hU, hok] at he
          exact Or.inl ⟨_, he⟩
        | cons y ys =>
          cases hok2 : w.npmUninstallOk <;>
            simp [installDiff, hI, hU, hok, hok2] at he <;>
            (rcases he with rfl | rfl
             · exact Or.inl ⟨_, rfl⟩
             · exact Or.inr ⟨_, rfl⟩)
  rcases hsh with ⟨ds, rfl⟩ | ⟨ps, rfl⟩ <;> exact ⟨rfl, by simp, by simp, by simp⟩

theorem npmInstallAllM_tr (w : World) : (npmInstallAllM w).2 = [.npmInstallAll] := rfl

theorem tryOlderBundles_hist (w : World) (cfg : Config) (rsy : Bool)
    (np : Option PkgJson) (h : String) (d : Nat) :
    (tryOlderBundles w cfg rsy np h d).2.1 =
      d + (tryOlderBundles w cfg rsy np h d).2.2.count .depthInc := by
  have hw := pullOlderBundle_depth_count w cfg rsy (d + w.history.length + 2) 0 d h
  by_cases hg : w.isGitRepo = true
  · cases hro : (pullOlderBundleFuel w cfg rsy (d + w.history.length + 2) 0 d h).out with
    | error e =>
      simp only [tryOlderBundles, hg, eq_self_iff_true, if_true, hro,
        List.count_cons]
      rw [hw] at *
      simp
    | ok oldPkg =>
      cases np with
      | none =>
        simp only [tryOlderBundles, hg, eq_self_iff_true, if_true, hro,
          List.count_cons]
        rw [hw] at *
        simp
      | some npk =>
        have hdiff : (installDiff w oldPkg npk).2.count Ev.depthInc = 0 := by
          apply List.count_eq_zero.mpr
          intro hmem
          rcases installDiff_tr_events w oldPkg npk _ hmem with ⟨-, h2, -, -⟩
          exact h2 rfl
        simp only [tryOlderBundles, hg, eq_self_iff_true, if_true, hro,
          List.count_cons, List.count_append]
        rw [hw] at *
        rw [hdiff]
        simp
  · have hg' : w.isGitRepo = false := by
      cases hgv : w.isGitRepo
      · rfl
      · exact absurd hgv hg
    simp [tryOlderBundles, hg']

theorem tryOlderBundles_tr_events (w : World) (cfg : Config) (rsy : Bool)
    (np : Option PkgJson) (h : String) (d : Nat) :
    ∀ e ∈ (tryOlderBundles w cfg rsy np h d).2.2,
      e.passPrivate = false ∧ e ≠ .npmInstallAll := by
  intro e he
  by_cases hg : w.isGitRepo = true
  · cases hro : (pullOlderBundleFuel w cfg rsy (d + w.history.length + 2) 0 d h).out with
    | error e' =>
      simp only [tryOlderBundles, hg, eq_self_iff_true, if_true, hro] at he
      rcases List.mem_cons.mp he with rfl | he'
      · exact ⟨rfl, by simp⟩
      · rcases pullOlderBundle_tr_events w cfg rsy _ 0 d h e he' with ⟨h1, -, h3⟩
        exact ⟨h1, h3⟩
    | ok oldPkg =>
      cases np with
      | none =>
        simp only [tryOlderBundles, hg, eq_self_iff_true, if_true, hro] at he
        rcases List.mem_cons.mp he with rfl | he'
        · exact ⟨rfl, by simp⟩
        · rcases pullOlderBundle_tr_events w cfg rsy _ 0 d h e he' with ⟨h1, -, h3⟩
          exact ⟨h1, h3⟩
      | some npk =>
        simp only [tryOlderBundles, hg, eq_self_iff_true, if_true, hro] at he
        rcases List.mem_cons.mp he with rfl | he'
        · exact ⟨rfl, by simp⟩
        · rcases List.mem_append.mp he' with hm | hm
          · rcases pullOlderBundle_tr_events w cfg rsy _ 0 d h e hm with ⟨h1, -, h3⟩
            exact ⟨h1, h3⟩
          · rcases installDiff_tr_events w oldPkg npk e hm with ⟨h1, -, -, h4⟩
            exact ⟨h1, h4⟩
  · have hg' : w.isGitRepo = false := by
      cases hgv : w.isGitRepo
      · rfl
      · exact absurd hgv hg
    simp only [tryOlderBundles, hg', Bool.false_eq_true, if_false] at he
    rcases List.mem_cons.mp he with rfl | he'
    · exact ⟨rfl, by simp⟩
    · cases he'

theorem catch1_hist (w : World) (cfg : Config) (rsy : Bool)
    (np : Option PkgJson) (h : String) (e : VError) :
    (catch1 w cfg rsy np h e).2.1 =
      cfg.useGitHistory.map
        (fun d0 => d0 + (catch1 w cfg rsy np h e).2.2.count .depthInc) := by
  by_cases hb : e = .bundlesNotFound
  · subst hb
    cases hg : cfg.useGitHistory with
    | none =>
      by_cases hf : cfg.fallbackToNpm = true
      · simp [catch1, npmInstallAllM, hf, hg]
      · simp [catch1, hf, hg]
    | some d =>
      by_cases hd : 0 < d
      · have ht := tryOlderBundles_hist w cfg rsy np h d
        simp only [catch1, hg, if_pos hd, Option.map_some']
        rw [ht]
      · by_cases hf : cfg.fallbackToNpm = true
        · simp [catch1, hg, if_neg hd, npmInstallAllM, hf]
        · simp [catch1, hg, if_neg hd, hf]
  · have hgen : (catch1 w cfg rsy np h e).2 = (cfg.useGitHistory, []) := by
      unfold catch1
      cases e <;> simp_all
    rw [hgen]
    cases cfg.useGitHistory <;> simp

theorem catch2_hist (w : World) (cfg : Config)
    (r : Except VError Unit × Option Nat × List Ev)
    (hr : r.2.1 = cfg.useGitHistory.map (fun d0 => d0 + r.2.2.count Ev.depthInc)) :
    (catch2 w cfg r).2.1 =
      cfg.useGitHistory.map
        (fun d0 => d0 + (catch2 w cfg r).2.2.count .depthInc) := by
  unfold catch2
  split
  · by_cases hf : cfg.fallbackToNpm = true
    · rw [if_pos hf]
      simp only [npmInstallAllM, List.count_append]
      rw [hr]
      cases cfg.useGitHistory <;> simp
    · rw [if_neg hf]
      exact hr
  · exact hr

theorem installPre_count (w : World) (cfg : Config) (a : InstallArgs)
    (rsy0 : Bool) :
    (installPre w cfg a rsy0).tr.count Ev.depthInc = 0 := by
  unfold installPre checkNodeModules
  split_ifs <;> (cases hr : w.rsyncAvailable <;> cases hp : w.pkgJson <;> simp)

theorem pushPhase_tr_events (w : World) (bs : List Backend) (h : String)
    (rp : Bool) :
    ∀ e ∈ (pushPhase w bs h rp).2,
      e = .pushPhaseMark (bs.map Backend.aliasName) h ∨ ∃ al, e = .push al h := by
  intro e he
  have hx : (pushPhase w bs h rp).2 =
      .pushPhaseMark (bs.map Backend.aliasName) h :: (pushBackends w bs h rp).2 := rfl
  rw [hx] at he
  rcases List.mem_cons.mp he with rfl | he'
  · exact Or.inl rfl
  · rcases pushBackends_trace_shape w h rp bs e he' with ⟨b, -, rfl⟩
    exact Or.inr ⟨_, rfl⟩

theorem pullBackends_count_depthInc (w : World) (bs : List Backend) (rsy : Bool)
    (hash : String) :
    ((pullBackends w bs rsy hash 0).2).count Ev.depthInc = 0 := by
  apply List.count_eq_zero.mpr
  intro hm
  rcases pullBackends_tr_events w bs rsy hash (bs.length - 0) 0 rfl _ hm with
    ⟨-, h2, -, -⟩
  exact h2 rfl

theorem pushPhase_count_depthInc (w : World) (bs : List Backend) (h : String)
    (rp : Bool) :
    ((pushPhase w bs h rp).2).count Ev.depthInc = 0 := by
  apply List.count_eq_zero.mpr
  intro hm
  rcases pushPhase_tr_events w bs h rp _ hm with heq | ⟨al, heq⟩ <;> cases heq

/-- Final depth reported by one install pass: the initial
`config.useGitHistory.depth` plus one for each `depthInc` event of the
pass's trace; `none` stays `none`. -/
theorem installPass_hist_count (w : World) (cfg : Config) (a : InstallArgs)
    (rsy0 : Bool) :
    (installPass w cfg a rsy0).hist =
      cfg.useGitHistory.map
        (fun d0 => d0 + (installPass w cfg a rsy0).tr.count Ev.depthInc) := by
  unfold installPass
  split
  · dsimp only
    rw [installPre_count]
    cases cfg.useGitHistory <;> simp
  · rename_i h newPkg hpre
    split
    · rename_i missing hpl
      split
      · dsimp only
        simp only [List.count_append, List.count_cons]
        rw [installPre_count, pullBackends_count_depthInc]
        cases cfg.useGitHistory <;> simp
      · dsimp only
        simp only [List.count_append, List.count_cons]
        rw [installPre_count, pullBackends_count_depthInc,
          pushPhase_count_depthInc]
        cases cfg.useGitHistory <;> simp
    · rename_i e hpl
      have hc1 := catch1_hist w cfg (installPre w cfg a rsy0).rsy newPkg h e
      have hc2 := catch2_hist w cfg _ hc1
      split
      · rename_i e' hcc
        dsimp only
        simp only [List.count_append, List.count_cons]
        rw [installPre_count, pullBackends_count_depthInc, hc2]
        cases cfg.useGitHistory <;> simp <;> try omega
      · rename_i u hcc
        dsimp only
        simp only [List.count_append, List.count_cons]
        rw [installPre_count, pullBackends_count_depthInc,
          pushPhase_count_depthInc, hc2]
        cases cfg.useGitHistory <;> simp <;> try omega

theorem installRec_succ_of_rePull {w : World} {n : Nat} {cfg : Config}
    {a : InstallArgs} {rsy : Bool} {hsh : String}
    (h : (installPass w cfg a rsy).out = .rePullNeeded hsh) :
    installRec w (n + 1) cfg a rsy =
      ⟨(installRec w n { cfg with useGitHistory := (installPass w cfg a rsy).hist }
          { force := true, rePull := true, rePullHash := some hsh,
            lockfile := a.lockfile } (installPass w cfg a rsy).rsy).out,
       (installRec w n { cfg with useGitHistory := (installPass w cfg a rsy).hist }
          { force := true, rePull := true, rePullHash := some hsh,
            lockfile := a.lockfile } (installPass w cfg a rsy).rsy).hist,
       (installRec w n { cfg with useGitHistory := (installPass w cfg a rsy).hist }
          { force := true, rePull := true, rePullHash := some hsh,
            lockfile := a.lockfile } (installPass w cfg a rsy).rsy).rsy,
       (installPass w cfg a rsy).tr ++
         (installRec w n { cfg with useGitHistory := (installPass w cfg a rsy).hist }
            { force := true, rePull := true, rePullHash := some hsh,
              lockfile := a.lockfile } (installPass w cfg a rsy).rsy).tr⟩ := by
  conv_lhs => rw [installRec]
  split
  · rename_i h'
    rw [h] at h'
    obtain rfl := PassOut.rePullNeeded.inj h'
    rfl
  · rename_i hne
    exact absurd h (hne hsh)

theorem installRec_succ_of_other {w : World} {n : Nat} {cfg : Config}
    {a : InstallArgs} {rsy : Bool}
    (h : ∀ hsh, (installPass w cfg a rsy).out ≠ .rePullNeeded hsh) :
    installRec w (n + 1) cfg a rsy = installPass w cfg a rsy := by
  conv_lhs => rw [installRec]
  split
  · rename_i h'
    exact absurd h' (h _)
  · rfl

/-- C10: `install` mutates `config.useGitHistory.depth` in place — the
final depth equals the initial depth plus the number of `depthInc` events
of the whole run (one per history revision whose fingerprint matched the
previous revision's), on success and on failure alike; no path restores
the original value, so the mutated config a later install would receive
carries the enlarged depth. -/
theorem c10_config_depth_mutation (w : World) :
    ∀ n (cfg : Config) (a : InstallArgs) (rsy : Bool),
      (installRec w n cfg a rsy).hist =
        cfg.useGitHistory.map
          (fun d0 => d0 + (installRec w n cfg a rsy).tr.count Ev.depthInc) := by
  intro n
  induction n with
  | zero =>
    intro cfg a rsy
    cases hg : cfg.useGitHistory <;> simp [installRec, hg]
  | succ n ih =>
    intro cfg a rsy
    have hp := installPass_hist_count w cfg a rsy
    by_cases hrp : ∃ hsh, (installPass w cfg a rsy).out = .rePullNeeded hsh
    · obtain ⟨hsh, hout⟩ := hrp
      rw [installRec_succ_of_rePull hout]
      have hr := ih { cfg with useGitHistory := (installPass w cfg a rsy).hist }
        { force := true, rePull := true, rePullHash := some hsh,
          lockfile := a.lockfile } (installPass w cfg a rsy).rsy
      dsimp only at hr ⊢
      rw [hr, hp]
      cases hg : cfg.useGitHistory with
      | none => simp [hg]
      | some d0 =>
        simp only [hg, Option.map_some', Option.some.injEq, List.count_append]
        omega
    · push_neg at hrp
      rw [installRec_succ_of_other hrp]
      exact hp

/-! The rePull bound. -/

theorem pushBackends_no_marker (w : World)
    (hw : ∀ al h, w.pushOutcome al h ≠ .err .rePullMarker) :
    ∀ bs h, (pushBackends w bs h true).1 ≠ .error .rePullMarker := by
  intro bs
  induction bs with
  | nil =>
    intro h hc
    simp [pushBackends] at hc
  | cons b rest ih =>
    intro h hc
    cases hbp : b.push with
    | false =>
      simp only [pushBackends, hbp, Bool.false_eq_true, if_false] at hc
      exact ih h hc
    | true =>
      cases hout : w.pushOutcome b.aliasName h with
      | ok =>
        simp only [pushBackends, hbp, hout, if_true] at hc
        exact ih h hc
      | alreadyExists =>
        simp [pushBackends, hbp, hout] at hc
      | err e =>
        cases hmf : b.pushMayFail with
        | true =>
          simp only [pushBackends, hbp, hout, hmf, if_true] at hc
          exact ih h hc
        | false =>
          simp only [pushBackends, hbp, hout, hmf, Bool.false_eq_true,
            if_false, if_true] at hc
          simp only [Except.error.injEq] at hc
          exact hw b.aliasName h (by rw [hout, hc])

theorem pushPhase_no_rePull (w : World)
    (hw : ∀ al h, w.pushOutcome al h ≠ .err .rePullMarker)
    (bs : List Backend) (h : String) :
    ∀ h', (pushPhase w bs h true).1 ≠ .rePullNeeded h' := by
  intro h' hc
  apply pushBackends_no_marker w hw bs h
  unfold pushPhase at hc
  rcases hp : (pushBackends w bs h true).1 with e | u
  · rw [hp] at hc
    cases e <;> simp_all
  · rw [hp] at hc
    simp at hc

theorem installPass_no_second_rePull (w : World)
    (hw : ∀ al h, w.pushOutcome al h ≠ .err .rePullMarker)
    (cfg : Config) (a : InstallArgs) (rsy : Bool) (ha : a.rePull = true) :
    ∀ h', (installPass w cfg a rsy).out ≠ .rePullNeeded h' := by
  intro h' hc
  unfold installPass at hc
  split at hc
  · simp at hc
  · split at hc
    · split at hc
      · simp at hc
      · rw [ha] at hc
        dsimp only at hc
        exact pushPhase_no_rePull w hw _ _ h' hc
    · split at hc
      · simp at hc
      · rw [ha] at hc
        dsimp only at hc
        exact pushPhase_no_rePull w hw _ _ h' hc

/-- C2: the rePull recovery is bounded.  Provided backends surface only
the contract's push failures (BundleAlreadyExists or an opaque backend
error — never veendor's internal RePullNeeded marker itself): a pass that
already runs with `rePull = true` never requests another rePull, any
re-entry budget of at least two passes computes the same result as
exactly two (so at most one re-entry happens, and it carries
`force = true, rePull = true` by construction of `installRec`), and a
push conflict on a `rePull = true` pass surfaces as the fatal
`BundleAlreadyExists` rejection. -/
theorem c2_rePull_at_most_once (w : World)
    (hw : ∀ al h, w.pushOutcome al h ≠ .err .rePullMarker) :
    (∀ cfg a rsy h', a.rePull = true →
      (installPass w cfg a rsy).out ≠ .rePullNeeded h') ∧
    (∀ n cfg a, installRec w (n + 2) cfg a false = install w cfg a) ∧
    (∀ b bs h, b.push = true → w.pushOutcome b.aliasName h = .alreadyExists →
      (pushBackends w (b :: bs) h true).1 = .error .bundleAlreadyExists) := by
  refine ⟨fun cfg a rsy h' ha => installPass_no_second_rePull w hw cfg a rsy ha h', ?_, ?_⟩
  · intro n cfg a
    unfold install
    show installRec w (n + 1 + 1) cfg a false = installRec w (1 + 1) cfg a false
    by_cases hrp : ∃ hsh, (installPass w cfg a false).out = .rePullNeeded hsh
    · obtain ⟨hsh, hout⟩ := hrp
      rw [installRec_succ_of_rePull hout, installRec_succ_of_rePull hout]
      rw [installRec_succ_of_other
          (fun h2 => installPass_no_second_rePull w hw _ _ _ rfl h2),
        installRec_succ_of_other
          (fun h2 => installPass_no_second_rePull w hw _ _ _ rfl h2)]
    · push_neg at hrp
      rw [installRec_succ_of_other hrp, installRec_succ_of_other hrp]
  · intro b bs h hbp hout
    simp [pushBackends, hbp, hout]

/-- Sample world in which every pull misses and every push reports a
conflicting concurrent writer. -/
def sampleConflictWorld : World :=
  { sampleWorld with
    pullOutcome := fun _ _ => .notFound
    pushOutcome := fun _ _ => .alreadyExists }

/-- Witness for C2: with a conflicting-writer world, any pass budget of
at least two equals exactly two, and a push conflict under `rePull=true`
is the fatal BundleAlreadyExists. -/
theorem c2_rePull_at_most_once_witness :
    (installRec sampleConflictWorld 7
        { backends := [backendA], fallbackToNpm := true } {} false =
      install sampleConflictWorld
        { backends := [backendA], fallbackToNpm := true } {}) ∧
    (pushBackends sampleConflictWorld [backendA] "x" true).1 =
      .error .bundleAlreadyExists :=
  ⟨(c2_rePull_at_most_once sampleConflictWorld
      (by intro al h; simp [sampleConflictWorld])).2.1 5
      { backends := [backendA], fallbackToNpm := true } {},
   (c2_rePull_at_most_once sampleConflictWorld
      (by intro al h; simp [sampleConflictWorld])).2.2 backendA [] "x"
      (by decide) rfl⟩

/-! The rePull pass: skipped checks and pinned fingerprint. -/

theorem passPrivate_false_spec {e : Ev} (hp : e.passPrivate = false) :
    e ≠ .rsyncProbe ∧ e ≠ .accessNM ∧ e ≠ .removeStart ∧ e ≠ .removeComplete ∧
    e ≠ .readPkgFiles ∧ (∀ h', e ≠ .hashMain h') ∧ (∀ h', e ≠ .mainPull h') ∧
    (∀ as h', e ≠ .pushPhaseMark as h') := by
  cases e <;> simp_all [Ev.passPrivate]

theorem catch1_tr_events (w : World) (cfg : Config) (rsy : Bool)
    (np : Option PkgJson) (h : String) (e : VError) :
    ∀ ev ∈ (catch1 w cfg rsy np h e).2.2, ev.passPrivate = false := by
  intro ev hev
  by_cases hb : e = .bundlesNotFound
  · subst hb
    cases hg : cfg.useGitHistory with
    | none =>
      by_cases hf : cfg.fallbackToNpm = true
      · simp only [catch1, hg, hf, if_true, npmInstallAllM] at hev
        rcases List.mem_singleton.mp hev with rfl
        rfl
      · simp [catch1, hg, hf] at hev
    | some d =>
      by_cases hd : 0 < d
      · simp only [catch1, hg, if_pos hd] at hev
        exact (tryOlderBundles_tr_events w cfg rsy np h d ev hev).1
      · by_cases hf : cfg.fallbackToNpm = true
        · simp only [catch1, hg, if_neg hd, hf, if_true, npmInstallAllM] at hev
          rcases List.mem_singleton.mp hev with rfl
          rfl
        · simp [catch1, hg, if_neg hd, hf] at hev
  · have hgen : (catch1 w cfg rsy np h e).2 = (cfg.useGitHistory, []) := by
      unfold catch1
      cases e <;> simp_all
    rw [hgen] at hev
    cases hev

theorem catch2_tr_events (w : World) (cfg : Config)
    (r : Except VError Unit × Option Nat × List Ev)
    (hr : ∀ ev ∈ r.2.2, ev.passPrivate = false) :
    ∀ ev ∈ (catch2 w cfg r).2.2, ev.passPrivate = false := by
  intro ev hev
  unfold catch2 at hev
  split at hev
  · by_cases hf : cfg.fallbackToNpm = true
    · rw [if_pos hf] at hev
      simp only [npmInstallAllM] at hev
      rcases List.mem_append.mp hev with hm | hm
      · exact hr ev hm
      · rcases List.mem_singleton.mp hm with rfl
        rfl
    · rw [if_neg hf] at hev
      exact hr ev hev
  · exact hr ev hev

theorem c9_generic {h : String} {tr rest : List Ev}
    (htr : tr = .mainPull h :: rest)
    (hrest : ∀ e ∈ rest, e.passPrivate = false ∨ ∃ as, e = Ev.pushPhaseMark as h) :
    (∀ e ∈ tr, e ≠ .rsyncProbe ∧ e ≠ .accessNM ∧ e ≠ .removeStart ∧
      e ≠ .removeComplete ∧ e ≠ .readPkgFiles ∧ (∀ h', e ≠ .hashMain h')) ∧
    (∀ h', Ev.mainPull h' ∈ tr → h' = h) ∧
    (∀ as h', Ev.pushPhaseMark as h' ∈ tr → h' = h) := by
  subst htr
  refine ⟨?_, ?_, ?_⟩
  · intro e he
    rcases List.mem_cons.mp he with rfl | he'
    · exact ⟨by simp, by simp, by simp, by simp, by simp, fun h' => by simp⟩
    · rcases hrest e he' with hp | ⟨as, rfl⟩
      · rcases passPrivate_false_spec hp with ⟨h1, h2, h3, h4, h5, h6, -, -⟩
        exact ⟨h1, h2, h3, h4, h5, h6⟩
      · exact ⟨by simp, by simp, by simp, by simp, by simp, fun h' => by simp⟩
  · intro h' hm
    rcases List.mem_cons.mp hm with heq | hm'
    · exact Ev.mainPull.inj heq
    · rcases hrest _ hm' with hp | ⟨as, heq⟩
      · exact absurd rfl ((passPrivate_false_spec hp).2.2.2.2.2.2.1 h')
      · cases heq
  · intro as h' hm
    rcases List.mem_cons.mp hm with heq | hm'
    · cases heq
    · rcases hrest _ hm' with hp | ⟨as', heq⟩
      · exact absurd rfl ((passPrivate_false_spec hp).2.2.2.2.2.2.2 as h')
      · obtain ⟨-, rfl⟩ := Ev.pushPhaseMark.inj heq
        rfl

/-- C9: on the second pass (`rePull = true` with the pinned hash), the
trace of the pass contains none of the first-pass freshness steps — no
rsync probe, no node_modules check or removal, no manifest/lockfile
read, no main hash computation — and both the main pull chain and every
push phase are invoked with exactly the pinned `rePullHash`. -/
theorem c9_rePull_skips_checks_pins_hash (w : World) (cfg : Config)
    (f lb : Bool) (h : String) (rsy0 : Bool) :
    (∀ e ∈ (installPass w cfg ⟨f, true, some h, lb⟩ rsy0).tr,
      e ≠ .rsyncProbe ∧ e ≠ .accessNM ∧ e ≠ .removeStart ∧
      e ≠ .removeComplete ∧ e ≠ .readPkgFiles ∧ (∀ h', e ≠ .hashMain h')) ∧
    (∀ h', Ev.mainPull h' ∈ (installPass w cfg ⟨f, true, some h, lb⟩ rsy0).tr →
      h' = h) ∧
    (∀ as h',
      Ev.pushPhaseMark as h' ∈ (installPass w cfg ⟨f, true, some h, lb⟩ rsy0).tr →
      h' = h) := by
  have hpre : installPre w cfg ⟨f, true, some h, lb⟩ rsy0 =
      ⟨.ok (h, none), rsy0, []⟩ := rfl
  have hplev := fun e he => (pullBackends_tr_events w cfg.backends rsy0 h
    (cfg.backends.length - 0) 0 rfl e he).1
  unfold installPass
  rw [hpre]
  dsimp only
  split
  · split
    · apply c9_generic rfl
      intro e he
      exact Or.inl (hplev e he)
    · apply c9_generic rfl
      intro e he
      rcases List.mem_append.mp he with hm | hm
      · exact Or.inl (hplev e hm)
      · rcases pushPhase_tr_events w _ h true e hm with rfl | ⟨al, rfl⟩
        · exact Or.inr ⟨_, rfl⟩
        · exact Or.inl rfl
  · rename_i e' hpl
    have hcev := catch2_tr_events w cfg _ (catch1_tr_events w cfg rsy0 none h e')
    split
    · apply c9_generic rfl
      intro e he
      rcases List.mem_append.mp he with hm | hm
      · exact Or.inl (hplev e hm)
      · exact Or.inl (hcev e hm)
    · apply c9_generic rfl
      intro e he
      rcases List.mem_append.mp he with hm | hm
      · rcases List.mem_append.mp hm with hm' | hm'
        · exact Or.inl (hplev e hm')
        · exact Or.inl (hcev e hm')
      · rcases pushPhase_tr_events w _ h true e hm with rfl | ⟨al, rfl⟩
        · exact Or.inr ⟨_, rfl⟩
        · exact Or.inl rfl

/-- Witness for C9 at a concrete rePull pass. -/
theorem c9_rePull_skips_checks_pins_hash_witness :
    ∀ h', Ev.mainPull h' ∈
        (installPass sampleWorld { backends := [backendA] }
          ⟨true, true, some "pinned", false⟩ false).tr →
      h' = "pinned" :=
  (c9_rePull_skips_checks_pins_hash sampleWorld { backends := [backendA] }
    true false "pinned" false).2.1

/-! The node_modules removal is not deferred in the source. -/

theorem installPass_tr_pre_prefix (w : World) (cfg : Config) (a : InstallArgs)
    (rsy0 : Bool) :
    ∃ tl, (installPass w cfg a rsy0).tr = (installPre w cfg a rsy0).tr ++ tl := by
  unfold installPass
  split
  · exact ⟨[], by simp⟩
  · split
    · split
      · exact ⟨_, rfl⟩
      · exact ⟨_, rfl⟩
    · split
      · exact ⟨_, rfl⟩
      · exact ⟨_, rfl⟩

/-- C7 (behaviour of the source, contradicting the claim): with
`node_modules` present, `force` set and rsync unavailable, the first four
events of the pass are the rsync probe, the `node_modules` access, and
the start AND COMPLETION of its removal — i.e. the removal completes
before `package.json` is even read and before any backend pull.  The
source's `Promise.resolve(fsExtra.remove(nodeModules))` is adopted by the
promise chain, so `checkNodeModules` only resolves (with `undefined`)
after the removal has finished; `clearNodeModulesPromise` is never
assigned and the `.then(() => clearNodeModulesPromise)` before the
move/sync awaits `undefined`. -/
theorem c7_removal_completes_before_pull (w : World) (cfg : Config)
    (a : InstallArgs) (rsy0 : Bool) (hre : a.rePull = false)
    (hf : a.force = true) (hnm : w.nodeModulesExists = true)
    (hrsy : w.rsyncAvailable = false) :
    ∃ rest, (installPass w cfg a rsy0).tr =
      .rsyncProbe :: .accessNM :: .removeStart :: .removeComplete :: rest := by
  have hchk : checkNodeModules w a.force w.rsyncAvailable =
      (.ok (), [.accessNM, .removeStart, .removeComplete]) := by
    unfold checkNodeModules
    rw [if_pos hnm, if_pos hf, hrsy]
    simp
  have hpre : ∃ r0, (installPre w cfg a rsy0).tr =
      .rsyncProbe :: .accessNM :: .removeStart :: .removeComplete :: r0 := by
    unfold installPre
    rw [if_neg (by simp [hre]), hchk]
    cases hp : w.pkgJson with
    | none => exact ⟨_, rfl⟩
    | some pkg => exact ⟨_, rfl⟩
  obtain ⟨tl, htl⟩ := installPass_tr_pre_prefix w cfg a rsy0
  obtain ⟨r0, hr0⟩ := hpre
  refine ⟨r0 ++ tl, ?_⟩
  rw [htl, hr0]
  simp

/-- Sample world with a pre-existing dependency tree. -/
def sampleForceWorld : World := { sampleWorld with nodeModulesExists := true }

/-- Witness for C7 at the concrete failing input: `force = true`,
`node_modules` present, rsync unavailable. -/
theorem c7_removal_completes_before_pull_witness :
    ∃ rest, (installPass sampleForceWorld { backends := [backendB] }
        { force := true } false).tr =
      .rsyncProbe :: .accessNM :: .removeStart :: .removeComplete :: rest :=
  c7_removal_completes_before_pull sampleForceWorld { backends := [backendB] }
    { force := true } false rfl rfl rfl rfl

/-! Dispatch after a chain-wide miss. -/

theorem catch2_tr_sup (w : World) (cfg : Config)
    (r : Except VError Unit × Option Nat × List Ev) {ev : Ev}
    (he : ev ∈ r.2.2) : ev ∈ (catch2 w cfg r).2.2 := by
  unfold catch2
  split
  · by_cases hf : cfg.fallbackToNpm = true
    · rw [if_pos hf]
      exact List.mem_append.mpr (Or.inl he)
    · rw [if_neg hf]
      exact he
  · exact he

theorem catch2_id_of_not_bnf (w : World) (cfg : Config)
    (r : Except VError Unit × Option Nat × List Ev)
    (h : r.1 ≠ .error .bundlesNotFound) : catch2 w cfg r = r := by
  unfold catch2
  split
  · rename_i heq
    exact absurd heq h
  · rfl

theorem install_eq_pass_of_err (w : World) (cfg : Config) (a : InstallArgs)
    (e : VError) (h : (installPass w cfg a false).out = .err e) :
    install w cfg a = installPass w cfg a false :=
  installRec_succ_of_other (fun hsh hc => by rw [h] at hc; cases hc)

theorem install_tr_sup (w : World) (cfg : Config) (a : InstallArgs) :
    ∀ ev ∈ (installPass w cfg a false).tr, ev ∈ (install w cfg a).tr := by
  intro ev hev
  by_cases hrp : ∃ hsh, (installPass w cfg a false).out = .rePullNeeded hsh
  · obtain ⟨hsh, hout⟩ := hrp
    show ev ∈ (installRec w (1 + 1) cfg a false).tr
    rw [installRec_succ_of_rePull hout]
    exact List.mem_append.mpr (Or.inl hev)
  · push_neg at hrp
    show ev ∈ (installRec w (1 + 1) cfg a false).tr
    rw [installRec_succ_of_other hrp]
    exact hev

theorem installPass_chain_miss_out (w : World) (cfg : Config) (a : InstallArgs)
    (pkg : PkgJson) (hre : a.rePull = false) (hnm : w.nodeModulesExists = false)
    (hpkg : w.pkgJson = some pkg)
    (hmiss : ∀ b ∈ cfg.backends, w.pullOutcome b.aliasName
      (calcHash pkg (if a.lockfile then some w.lockContents else none)
        cfg.packageHash) = .notFound)
    (e' : VError)
    (hcc : (catch2 w cfg (catch1 w cfg w.rsyncAvailable (some pkg)
      (calcHash pkg (if a.lockfile then some w.lockContents else none)
        cfg.packageHash) .bundlesNotFound)).1 = .error e') :
    (installPass w cfg a false).out = .err e' := by
  have hpre : installPre w cfg a false =
      ⟨.ok (calcHash pkg (if a.lockfile then some w.lockContents else none)
          cfg.packageHash, some pkg),
       w.rsyncAvailable,
       [.rsyncProbe, .accessNM, .readPkgFiles,
        .hashMain (calcHash pkg
          (if a.lockfile then some w.lockContents else none) cfg.packageHash)]⟩ := by
    unfold installPre checkNodeModules
    rw [if_neg (by simp [hre]), if_neg (by simp [hnm]), hpkg]
    rfl
  have hpl : (pullBackends w cfg.backends w.rsyncAvailable
      (calcHash pkg (if a.lockfile then some w.lockContents else none)
        cfg.packageHash) 0).1 = .error .bundlesNotFound :=
    pullBackends_all_miss w cfg.backends w.rsyncAvailable _ hmiss _ 0 rfl
  unfold installPass
  rw [hpre]
  dsimp only
  rw [hpl]
  dsimp only
  rw [hcc]

theorem installPass_chain_miss_mem (w : World) (cfg : Config) (a : InstallArgs)
    (pkg : PkgJson) (hre : a.rePull = false) (hnm : w.nodeModulesExists = false)
    (hpkg : w.pkgJson = some pkg)
    (hmiss : ∀ b ∈ cfg.backends, w.pullOutcome b.aliasName
      (calcHash pkg (if a.lockfile then some w.lockContents else none)
        cfg.packageHash) = .notFound) :
    ∀ ev ∈ (catch2 w cfg (catch1 w cfg w.rsyncAvailable (some pkg)
      (calcHash pkg (if a.lockfile then some w.lockContents else none)
        cfg.packageHash) .bundlesNotFound)).2.2,
      ev ∈ (installPass w cfg a false).tr := by
  intro ev hev
  have hpre : installPre w cfg a false =
      ⟨.ok (calcHash pkg (if a.lockfile then some w.lockContents else none)
          cfg.packageHash, some pkg),
       w.rsyncAvailable,
       [.rsyncProbe, .accessNM, .readPkgFiles,
        .hashMain (calcHash pkg
          (if a.lockfile then some w.lockContents else none) cfg.packageHash)]⟩ := by
    unfold installPre checkNodeModules
    rw [if_neg (by simp [hre]), if_neg (by simp [hnm]), hpkg]
    rfl
  have hpl : (pullBackends w cfg.backends w.rsyncAvailable
      (calcHash pkg (if a.lockfile then some w.lockContents else none)
        cfg.packageHash) 0).1 = .error .bundlesNotFound :=
    pullBackends_all_miss w cfg.backends w.rsyncAvailable _ hmiss _ 0 rfl
  unfold installPass
  rw [hpre]
  dsimp only
  rw [hpl]
  dsimp only
  split
  · refine List.mem_append.mpr (Or.inr ?_)
    refine List.mem_cons.mpr (Or.inr ?_)
    exact List.mem_append.mpr (Or.inr hev)
  · refine List.mem_append.mpr (Or.inr ?_)
    refine List.mem_cons.mpr (Or.inr ?_)
    exact List.mem_append.mpr (Or.inl (List.mem_append.mpr (Or.inr hev)))

/-- C3 (corrected): dispatch after the pull chain fails with
BundlesNotFound.  The code checks only `useGitHistory.depth > 0` before
entering the history fallback — the VCS check happens inside it, and when
the project is NOT a git repository the fallback rejects with
`NotAGitRepoError`, which is fatal even when `fallbackToNpm = true`
(contradicting the claim's "otherwise, if fallbackToNpm=true, the native
full install runs"; see `c3_not_a_repo_counterexample`).  When no
positive depth is configured, `fallbackToNpm = true` runs the native full
install and `fallbackToNpm = false` is the fatal BundlesNotFound.
Failures inside the history walk surface as BundlesNotFound (depth
exhaustion), upon which `fallbackToNpm = true` runs the native full
install and `fallbackToNpm = false` is fatal. -/
theorem c3_bundlesNotFound_dispatch (w : World) (cfg : Config) (a : InstallArgs)
    (pkg : PkgJson) (hre : a.rePull = false) (hnm : w.nodeModulesExists = false)
    (hpkg : w.pkgJson = some pkg)
    (hmiss : ∀ b ∈ cfg.backends, w.pullOutcome b.aliasName
      (calcHash pkg (if a.lockfile then some w.lockContents else none)
        cfg.packageHash) = .notFound) :
    (∀ d, cfg.useGitHistory = some d → 0 < d → w.isGitRepo = false →
      (install w cfg a).out = .err .notAGitRepo) ∧
    (∀ d, cfg.useGitHistory = some d → 0 < d → w.isGitRepo = true →
      Ev.isGitRepoEv ∈ (install w cfg a).tr) ∧
    ((cfg.useGitHistory = none ∨ cfg.useGitHistory = some 0) →
      (cfg.fallbackToNpm = true → Ev.npmInstallAll ∈ (install w cfg a).tr) ∧
      (cfg.fallbackToNpm = false →
        (install w cfg a).out = .err .bundlesNotFound)) ∧
    (∀ d, cfg.useGitHistory = some d → 0 < d → w.isGitRepo = true →
      (pullOlderBundleFuel w cfg w.rsyncAvailable (d + w.history.length + 2) 0 d
        (calcHash pkg (if a.lockfile then some w.lockContents else none)
          cfg.packageHash)).out = .error .bundlesNotFound →
      (cfg.fallbackToNpm = true → Ev.npmInstallAll ∈ (install w cfg a).tr) ∧
      (cfg.fallbackToNpm = false →
        (install w cfg a).out = .err .bundlesNotFound)) := by
  refine ⟨?_, ?_, ?_, ?_⟩
  · intro d hg hd hgit
    have ht : tryOlderBundles w cfg w.rsyncAvailable (some pkg)
        (calcHash pkg (if a.lockfile then some w.lockContents else none)
          cfg.packageHash) d = (.error .notAGitRepo, d, [.isGitRepoEv]) := by
      unfold tryOlderBundles
      rw [hgit]
      simp
    have hc1 : catch1 w cfg w.rsyncAvailable (some pkg)
        (calcHash pkg (if a.lockfile then some w.lockContents else none)
          cfg.packageHash) .bundlesNotFound =
        (.error .notAGitRepo, some d, [.isGitRepoEv]) := by
      simp only [catch1, hg]
      rw [if_pos hd, ht]
    have hcc : (catch2 w cfg (catch1 w cfg w.rsyncAvailable (some pkg)
        (calcHash pkg (if a.lockfile then some w.lockContents else none)
          cfg.packageHash) .bundlesNotFound)).1 = .error .notAGitRepo := by
      rw [hc1, catch2_id_of_not_bnf w cfg _ (by simp)]
    have hpass := installPass_chain_miss_out w cfg a pkg hre hnm hpkg hmiss
      .notAGitRepo hcc
    rw [install_eq_pass_of_err w cfg a _ hpass]
    exact hpass
  · intro d hg hd hgit
    have hthead : ∃ tl', (tryOlderBundles w cfg w.rsyncAvailable (some pkg)
        (calcHash pkg (if a.lockfile then some w.lockContents else none)
          cfg.packageHash) d).2.2 = .isGitRepoEv :: tl' := by
      unfold tryOlderBundles
      rw [if_pos hgit]
      split
      · exact ⟨_, rfl⟩
      · exact ⟨_, rfl⟩
    have hc122 : (catch1 w cfg w.rsyncAvailable (some pkg)
        (calcHash pkg (if a.lockfile then some w.lockContents else none)
          cfg.packageHash) .bundlesNotFound).2.2 =
        (tryOlderBundles w cfg w.rsyncAvailable (some pkg)
          (calcHash pkg (if a.lockfile then some w.lockContents else none)
            cfg.packageHash) d).2.2 := by
      simp only [catch1, hg]
      rw [if_pos hd]
    obtain ⟨tl', htl'⟩ := hthead
    have hmem1 : Ev.isGitRepoEv ∈ (catch1 w cfg w.rsyncAvailable (some pkg)
        (calcHash pkg (if a.lockfile then some w.lockContents else none)
          cfg.packageHash) .bundlesNotFound).2.2 := by
      rw [hc122, htl']
      exact List.mem_cons_self _ _
    exact install_tr_sup w cfg a _
      (installPass_chain_miss_mem w cfg a pkg hre hnm hpkg hmiss _
        (catch2_tr_sup w cfg _ hmem1))
  · intro hg
    have hc1 : catch1 w cfg w.rsyncAvailable (some pkg)
        (calcHash pkg (if a.lockfile then some w.lockContents else none)
          cfg.packageHash) .bundlesNotFound =
        (if cfg.fallbackToNpm then
          ((npmInstallAllM w).1, cfg.useGitHistory, (npmInstallAllM w).2)
         else (.error .bundlesNotFound, cfg.useGitHistory, [])) := by
      rcases hg with hg | hg
      · simp only [catch1, hg]
      · simp only [catch1, hg]
        rw [if_neg (by omega : ¬ (0 : Nat) < 0)]
    constructor
    · intro hf
      rw [if_pos hf] at hc1
      have hmem1 : Ev.npmInstallAll ∈ (catch1 w cfg w.rsyncAvailable (some pkg)
          (calcHash pkg (if a.lockfile then some w.lockContents else none)
            cfg.packageHash) .bundlesNotFound).2.2 := by
        rw [hc1]
        simp [npmInstallAllM]
      exact install_tr_sup w cfg a _
        (installPass_chain_miss_mem w cfg a pkg hre hnm hpkg hmiss _
          (catch2_tr_sup w cfg _ hmem1))
    · intro hf
      rw [if_neg (show ¬ cfg.fallbackToNpm = true by simp [hf])] at hc1
      have hcc : (catch2 w cfg (catch1 w cfg w.rsyncAvailable (some pkg)
          (calcHash pkg (if a.lockfile then some w.lockContents else none)
            cfg.packageHash) .bundlesNotFound)).1 = .error .bundlesNotFound := by
        rw [hc1]
        unfold catch2
        simp [hf]
      have hpass := installPass_chain_miss_out w cfg a pkg hre hnm hpkg hmiss
        .bundlesNotFound hcc
      rw [install_eq_pass_of_err w cfg a _ hpass]
      exact hpass
  · intro d hg hd hgit hwalk
    have ht : tryOlderBundles w cfg w.rsyncAvailable (some pkg)
        (calcHash pkg (if a.lockfile then some w.lockContents else none)
          cfg.packageHash) d =
        (.error .bundlesNotFound,
         (pullOlderBundleFuel w cfg w.rsyncAvailable (d + w.history.length + 2)
           0 d (calcHash pkg
             (if a.lockfile then some w.lockContents else none)
             cfg.packageHash)).depth,
         .isGitRepoEv ::
           (pullOlderBundleFuel w cfg w.rsyncAvailable (d + w.history.length + 2)
             0 d (calcHash pkg
               (if a.lockfile then some w.lockContents else none)
               cfg.packageHash)).tr) := by
      unfold tryOlderBundles
      rw [if_pos hgit, hwalk]
    have hc1 : catch1 w cfg w.rsyncAvailable (some pkg)
        (calcHash pkg (if a.lockfile then some w.lockContents else none)
          cfg.packageHash) .bundlesNotFound =
        (.error .bundlesNotFound,
         some (pullOlderBundleFuel w cfg w.rsyncAvailable
           (d + w.history.length + 2) 0 d (calcHash pkg
             (if a.lockfile then some w.lockContents else none)
             cfg.packageHash)).depth,
         .isGitRepoEv ::
           (pullOlderBundleFuel w cfg w.rsyncAvailable (d + w.history.length + 2)
             0 d (calcHash pkg
               (if a.lockfile then some w.lockContents else none)
               cfg.packageHash)).tr) := by
      simp only [catch1, hg]
      rw [if_pos hd, ht]
    constructor
    · intro hf
      have hmem2 : Ev.npmInstallAll ∈ (catch2 w cfg
          (catch1 w cfg w.rsyncAvailable (some pkg)
            (calcHash pkg (if a.lockfile then some w.lockContents else none)
              cfg.packageHash) .bundlesNotFound)).2.2 := by
        rw [hc1]
        unfold catch2
        rw [if_pos hf]
        simp [npmInstallAllM]
      exact install_tr_sup w cfg a _
        (installPass_chain_miss_mem w cfg a pkg hre hnm hpkg hmiss _ hmem2)
    · intro hf
      have hcc : (catch2 w cfg (catch1 w cfg w.rsyncAvailable (some pkg)
          (calcHash pkg (if a.lockfile then some w.lockContents else none)
            cfg.packageHash) .bundlesNotFound)).1 = .error .bundlesNotFound := by
        rw [hc1]
        unfold catch2
        simp [hf]
      have hpass := installPass_chain_miss_out w cfg a pkg hre hnm hpkg hmiss
        .bundlesNotFound hcc
      rw [install_eq_pass_of_err w cfg a _ hpass]
      exact hpass

/-- World for the C3 counterexample: every backend misses and the project
is not a git repository. -/
def cexWorldC3 : World :=
  { sampleWorld with
    pullOutcome := fun _ _ => .notFound
    isGitRepo := false }

/-- C3 counterexample: with `useGitHistory.depth = 1`, NOT in a git repo
and `fallbackToNpm = true`, the claim says the native full install runs;
the code instead rejects fatally with `NotAGitRepoError` and never runs
`npm install`. -/
theorem c3_not_a_repo_counterexample :
    (install cexWorldC3
      { backends := [backendA], useGitHistory := some 1, fallbackToNpm := true }
      {}).out = .err .notAGitRepo ∧
    Ev.npmInstallAll ∉ (install cexWorldC3
      { backends := [backendA], useGitHistory := some 1, fallbackToNpm := true }
      {}).tr := by
  constructor
  · decide
  · decide

/-- Witness for the corrected C3 at concrete worlds: the no-history
no-fallback case rejects with BundlesNotFound. -/
theorem c3_bundlesNotFound_dispatch_witness :
    (install cexWorldC3 { backends := [backendA] } {}).out =
      .err .bundlesNotFound :=
  ((c3_bundlesNotFound_dispatch cexWorldC3 { backends := [backendA] } {}
    samplePkgCur rfl rfl rfl (by decide)).2.2.1 (Or.inl rfl)).2 rfl

end Veendor
